import Mathlib

/-!
# GTK Sudoku: board text codec, cells, boards and the edit dialog

A shallow embedding of `board.c`, `sudokucell.c`, `sudokuboard.c` and
`sudokuedit.c`, and of `save_file` of `gtksudoku.c` with `interp_save` of
`interp.c`.

* A C `int` is a Lean `Int`.  The only arithmetic on it is `1 << d` with
  `0 ≤ d ≤ 9` and `val & ALL`, neither of which can overflow; `&` on a
  negative operand is the two's complement conjunction `Int.land`.
* A character is its code (`'.'` is 46, `'1'` is 49, `'9'` is 57, `' '` is 32).
* A `const char *` is `Option (List Int)`: `none` is the null pointer and
  `some s` points at a buffer holding the bytes of `s` followed by the
  terminating 0.
* Calls into the toolkit that leave the program state alone are recorded as
  a list of `Effect`s returned next to the new state.
* The doubles of the drawing code are exact rationals, and a drawing is the
  list of calls made on the cairo context.
-/

namespace GtkSudoku

/-! ## gtksudoku.h -/

/-- Number of cells on the side of a square: `#define SIDES 3`. -/
def SIDES : Int := 3

/-- Number of digits and cells on the side of a board:
`#define DIGITS (SIDES * SIDES)`. -/
def DIGITS : Int := SIDES * SIDES

/-- Bit set with all digits enabled: `#define ALL ((1 << DIGITS) - 1)`. -/
def ALL : Int := (1 <<< DIGITS) - 1

/-! ## board.c -/

/-- Source `isboardchar`: `c == '.' || (c >= '1' && c <= '9')`. -/
def isboardchar (c : Int) : Bool :=
  c == 46 || (c >= 49 && c <= 57)

/-- The loop of `boardlen`: `for (; *s; s++) if (isboardchar(*s)) n++;`.
The empty list is the pointer standing on the terminator. -/
def boardlenLoop : List Int → Nat → Nat
  | [], n => n
  | c :: rest, n =>
    if c = 0 then n
    else boardlenLoop rest (if isboardchar c then n + 1 else n)

/-- Source `boardlen`: 0 for the null pointer, otherwise the count of board
characters up to the terminator. -/
def boardlen (s : Option (List Int)) : Nat :=
  match s with
  | none => 0
  | some str => boardlenLoop str 0

/-- Source `boardchar2val`: `1 << (c - '1')` for a digit, `ALL` otherwise. -/
def boardchar2val (c : Int) : Int :=
  if c >= 49 && c <= 57 then 1 <<< (c - 49) else ALL

/-- Source `val2boardchar`: the first `d < DIGITS` with `val == (1 << d)`
gives `'1' + d`; when the loop runs out the result is `'.'`. -/
def val2boardchar (val : Int) : Int :=
  match (List.range DIGITS.toNat).find? (fun d => val == 1 <<< (d : Int)) with
  | some d => 49 + (d : Int)
  | none => 46

/-! ## sudokucell.c -/

/-- The calls a cell or a board makes into the toolkit. -/
inductive Effect
  /-- The window of the cell at `(row, col)` is invalidated and its updates
  processed (`gdk_window_invalidate_region`, `gdk_window_process_updates`). -/
  | invalidate (row col : Int)
  /-- The signal `sudoku-board-changed` is emitted on the parent of the cell,
  with these four arguments. -/
  | changed (row col val mode : Int)
  /-- The diagnostic of a failed `g_return_if_fail`. -/
  | critical
  /-- The key event is handed to `gtk_bindings_activate_event`. -/
  | bindings (keyval : Int)
  deriving DecidableEq

/-- The fields of `struct _SudokuCellPrivate`, and whether the widget has a
window (`widget->window` is not null). -/
structure SudokuCell where
  row : Int
  col : Int
  val : Int
  mode : Int
  editable : Bool
  window : Bool
  deriving DecidableEq

/-- Source `sudoku_cell_init`: `priv->val = ALL; priv->mode = 0;` on the
zeroed instance that `g_object_new` hands over. -/
def sudoku_cell_init : SudokuCell :=
  { row := 0, col := 0, val := ALL, mode := 0, editable := false, window := false }

/-- Source `sudoku_cell_new`. -/
def sudoku_cell_new (row col : Int) (editable : Bool) : SudokuCell :=
  { sudoku_cell_init with row := row, col := col, editable := editable }

/-- Source `sudoku_cell_redraw_canvas`: nothing without a window, otherwise
the whole window is exposed. -/
def sudoku_cell_redraw_canvas (cell : SudokuCell) : List Effect :=
  if !cell.window then [] else [Effect.invalidate cell.row cell.col]

/-- Source `sudoku_cell_set_val`. -/
def sudoku_cell_set_val (cell : SudokuCell) (val mode : Int) :
    SudokuCell × List Effect :=
  let val := Int.land val ALL
  if cell.val ≠ val ∨ cell.mode ≠ mode then
    let cell1 := { cell with val := val, mode := mode }
    (cell1, sudoku_cell_redraw_canvas cell1)
  else
    (cell, [])

/-- Source `sudoku_cell_get_val`. -/
def sudoku_cell_get_val (cell : SudokuCell) : Int :=
  cell.val

/-- What a key handler leaves behind: the cell, the toolkit calls it made
and the `gboolean` it returns. -/
structure KeyResult where
  cell : SudokuCell
  effects : List Effect
  ret : Bool
  deriving DecidableEq

/-- Source `pressed_key`. -/
def pressed_key (cell : SudokuCell) (digit : Int) : KeyResult :=
  let digit := if digit >= 1 && digit <= 9 then 1 <<< (digit - 1) else ALL
  let old := cell.val
  let r := sudoku_cell_set_val cell digit 0
  let priv := r.1
  let emitted :=
    if digit ≠ old then
      [Effect.changed priv.row priv.col priv.val priv.mode]
    else []
  { cell := priv, effects := r.2 ++ emitted, ret := false }

/-- Key symbol `GDK_KEY_space` of `gdk/gdkkeysyms.h`. -/
def GDK_KEY_space : Int := 0x020

/-- Key symbol `GDK_KEY_period` of `gdk/gdkkeysyms.h`. -/
def GDK_KEY_period : Int := 0x02e

/-- Key symbol `GDK_KEY_1` of `gdk/gdkkeysyms.h`; `GDK_KEY_2` to `GDK_KEY_9`
follow it one by one. -/
def GDK_KEY_1 : Int := 0x031

/-- Source `sudoku_cell_key_press`.  `bindings` is what
`gtk_bindings_activate_event` answers for this event. -/
def sudoku_cell_key_press (cell : SudokuCell) (keyval : Int) (bindings : Bool) :
    KeyResult :=
  let unhandled : KeyResult :=
    { cell := cell, effects := [Effect.bindings keyval], ret := bindings }
  if cell.editable then
    if keyval = GDK_KEY_1 then pressed_key cell 1
    else if keyval = GDK_KEY_1 + 1 then pressed_key cell 2
    else if keyval = GDK_KEY_1 + 2 then pressed_key cell 3
    else if keyval = GDK_KEY_1 + 3 then pressed_key cell 4
    else if keyval = GDK_KEY_1 + 4 then pressed_key cell 5
    else if keyval = GDK_KEY_1 + 5 then pressed_key cell 6
    else if keyval = GDK_KEY_1 + 6 then pressed_key cell 7
    else if keyval = GDK_KEY_1 + 7 then pressed_key cell 8
    else if keyval = GDK_KEY_1 + 8 then pressed_key cell 9
    else if keyval = GDK_KEY_period ∨ keyval = GDK_KEY_space then pressed_key cell 0
    else unhandled
  else unhandled

/-! ## sudokuboard.c -/

/-- The private data of a board, `SudokuCell *board[DIGITS][DIGITS]`. -/
structure SudokuBoard where
  board : Fin 9 → Fin 9 → SudokuCell

/-- The test `i >= 0 && i < DIGITS` of `g_return_if_fail`, with the array
index it licenses. -/
def index (i : Int) : Option (Fin 9) :=
  if h : i >= 0 ∧ i < DIGITS then
    some ⟨i.toNat, by have hd : DIGITS = 9 := rfl; omega⟩
  else none

/-- The store `priv->board[r][c] = cell`. -/
def SudokuBoard.store (b : SudokuBoard) (r c : Fin 9) (cell : SudokuCell) :
    SudokuBoard :=
  { board := fun i j => if i = r ∧ j = c then cell else b.board i j }

/-- Source `sudoku_board_new`: 81 cells made by `sudoku_cell_new`. -/
def sudoku_board_new (editable : Bool) : SudokuBoard :=
  { board := fun row col => sudoku_cell_new row col editable }

/-- Source `sudoku_board_set_val`: the two range checks, then the cell's
`set_val`. -/
def sudoku_board_set_val (b : SudokuBoard) (row col val mode : Int) :
    SudokuBoard × List Effect :=
  match index row with
  | none => (b, [Effect.critical])
  | some r =>
    match index col with
    | none => (b, [Effect.critical])
    | some c =>
      let res := sudoku_cell_set_val (b.board r c) val mode
      (b.store r c res.1, res.2)

/-- Source `sudoku_board_get_val`: -1 when a range check fails. -/
def sudoku_board_get_val (b : SudokuBoard) (row col : Int) : Int × List Effect :=
  match index row with
  | none => (-1, [Effect.critical])
  | some r =>
    match index col with
    | none => (-1, [Effect.critical])
    | some c => (sudoku_cell_get_val (b.board r c), [])

/-- A key press as the toolkit delivers it: the cell that has the focus, the
key symbol and the answer of `gtk_bindings_activate_event`. -/
structure KeyEvent where
  row : Fin 9
  col : Fin 9
  keyval : Int
  bindings : Bool
  deriving DecidableEq

/-- The `key_press_event` of the focused cell, run on the board that owns
the cell. -/
def board_key_press (b : SudokuBoard) (e : KeyEvent) : SudokuBoard × List Effect :=
  let res := sudoku_cell_key_press (b.board e.row e.col) e.keyval e.bindings
  (b.store e.row e.col res.cell, res.effects)

/-! ## sudokuedit.c -/

/-- The read `board[i]` of a string: the bytes, then the terminator, then
nothing that may be read. -/
def deref (s : List Int) (i : Nat) : Option Int :=
  (s ++ [0])[i]?

/-- The variables of the loop of `sudoku_dialog_set`: the board, how far the
pointer `board` has moved, and the toolkit calls so far. -/
structure SetState where
  widget : SudokuBoard
  pos : Nat
  effects : List Effect

/-- The body of the loop of `sudoku_dialog_set`:
`if (isboardchar(*board)) set_val(widget, row, col, boardchar2val(*board), 0); board++;`. -/
def dialog_set_body (s : List Int) (row col : Nat) (st : SetState) :
    Option SetState :=
  match deref s st.pos with
  | none => none
  | some c =>
    if isboardchar c then
      let res := sudoku_board_set_val st.widget row col (boardchar2val c) 0
      some { widget := res.1, pos := st.pos + 1, effects := st.effects ++ res.2 }
    else
      some { st with pos := st.pos + 1 }

/-- The inner loop `for (col = 0; col < DIGITS; col++)`. -/
def dialog_set_row (s : List Int) (st : SetState) (row : Nat) : Option SetState :=
  (List.range DIGITS.toNat).foldlM (fun acc col => dialog_set_body s row col acc) st

/-- Source `sudoku_dialog_set`.  The result is `none` when a read falls
outside the string. -/
def sudoku_dialog_set (widget : SudokuBoard) (board : Option (List Int)) :
    Option (SudokuBoard × List Effect) :=
  if boardlen board ≠ (DIGITS * DIGITS).toNat then some (widget, [])
  else
    match board with
    | none => none
    | some s =>
      ((List.range DIGITS.toNat).foldlM (dialog_set_row s)
          { widget := widget, pos := 0, effects := [] }).map
        (fun st => (st.widget, st.effects))

/-- The body of the loop that builds the result of `sudoku_edit_dialog`:
`val = get_val(grid, row, col); *b++ = val2boardchar(val);`. -/
def apply_body (grid : SudokuBoard) (row col : Nat)
    (acc : List Int × List Effect) : List Int × List Effect :=
  let res := sudoku_board_get_val grid row col
  (acc.1 ++ [val2boardchar res.1], acc.2 ++ res.2)

/-- The two loops of `sudoku_edit_dialog` that run on `GTK_RESPONSE_APPLY`,
giving the bytes written before the terminator. -/
def apply_loop (grid : SudokuBoard) : List Int × List Effect :=
  (List.range DIGITS.toNat).foldl
    (fun acc row =>
      (List.range DIGITS.toNat).foldl (fun acc1 col => apply_body grid row col acc1) acc)
    ([], [])

/-- Response `GTK_RESPONSE_APPLY` of `gtk/gtkdialog.h`. -/
def GTK_RESPONSE_APPLY : Int := -10

/-- `gtk_widget_show_all` followed by the start of `gtk_dialog_run`: every
cell of the board gets a window. -/
def show_all (b : SudokuBoard) : SudokuBoard :=
  { board := fun r c => { b.board r c with window := true } }

/-- How `sudoku_edit_dialog` ends. -/
inductive DialogResult
  /-- Behaviour the C standard leaves undefined: a read outside the seed
  string, or the seed string used as a widget. -/
  | undefined
  /-- The call `exit(EXIT_FAILURE)` after a failed `malloc`. -/
  | aborted
  /-- The null pointer. -/
  | null
  /-- A fresh string with these bytes before its terminator. -/
  | text (s : List Int)
  deriving DecidableEq

/-- The call `gtk_window_set_geometry_hints(GTK_WINDOW(window),
GTK_WIDGET(board), &hints, GDK_HINT_ASPECT)` of `sudoku_edit_dialog`, compiled
because `gtksudoku.h` defines `SUDOKU_BOARD_MIN_ASPECT`.  Its `board` is the
seed string, not the board widget: the null pointer goes through the cast
and is a legal geometry widget, a string is read as a widget instance, which
it is not.  The result says whether the call is defined. -/
def geometry_hints_defined (board : Option (List Int)) : Bool :=
  match board with
  | none => true
  | some _ => false

/-- The end of `sudoku_edit_dialog`, from `char *result = NULL;` to
`return result;`, for the grid as `gtk_dialog_run` leaves it and the response
it returns; `mallocOk` says whether `malloc` succeeds. -/
def dialog_result (grid : SudokuBoard) (response : Int) (mallocOk : Bool) :
    DialogResult :=
  if response = GTK_RESPONSE_APPLY then
    if mallocOk then DialogResult.text (apply_loop grid).1
    else DialogResult.aborted
  else DialogResult.null

/-- Source `sudoku_edit_dialog`: the grid is made editable and seeded, the
geometry hints are set, the dialog runs, and on `GTK_RESPONSE_APPLY` the grid
is written out.  What happens inside `gtk_dialog_run` is given by the key
presses the cells receive and the response the dialog ends with. -/
def sudoku_edit_dialog (board : Option (List Int)) (keys : List KeyEvent)
    (response : Int) (mallocOk : Bool) : DialogResult :=
  match sudoku_dialog_set (sudoku_board_new true) board with
  | none => DialogResult.undefined
  | some (grid0, _) =>
    if !geometry_hints_defined board then DialogResult.undefined
    else
      dialog_result (keys.foldl (fun g e => (board_key_press g e).1) (show_all grid0))
        response mallocOk

/-! ## Spec-side vocabulary -/

/-- Bit `d` of a candidate set, as the dot loop of `draw` tests it:
`val & (1 << d)`. -/
def hasBit (v : Int) (d : Nat) : Bool :=
  Int.land v (1 <<< (d : Int)) != 0

/-- The number of bits set among the nine bits of a candidate set. -/
def bitCount (v : Int) : Nat :=
  ((List.range 9).filter (fun d => hasBit v d)).length

/-- Bit `d` is the only one of the nine bits that is set. -/
def onlyBit (v : Int) (d : Nat) : Bool :=
  (List.range 9).all (fun e => hasBit v e == decide (e = d))

/-- The change notifications among the toolkit calls. -/
def notifications (effects : List Effect) : List Effect :=
  effects.filter (fun e => match e with
    | Effect.changed _ _ _ _ => true
    | _ => false)

/-- The keys the switch of `sudoku_cell_key_press` has a case for. -/
def isHandledKey (keyval : Int) : Bool :=
  (GDK_KEY_1 ≤ keyval && keyval ≤ GDK_KEY_1 + 8) ||
    keyval == GDK_KEY_period || keyval == GDK_KEY_space

/-- The value `pressed_key` computes from its argument before it calls
`set_val`. -/
def keyDigit (digit : Int) : Int :=
  if digit >= 1 && digit <= 9 then 1 <<< (digit - 1) else ALL

/-- The cell at `(r, c)` after the loop of `sudoku_dialog_set` has run over
the string `s` on the board `w`: the byte at offset `9 * r + c` decides. -/
def seeded (w : SudokuBoard) (s : List Int) (r c : Fin 9) : SudokuCell :=
  if isboardchar (s.getD (9 * r.val + c.val) 0) then
    (sudoku_cell_set_val (w.board r c) (boardchar2val (s.getD (9 * r.val + c.val) 0)) 0).1
  else w.board r c

/-- The board characters of a string in the order `boardlen` meets them:
the bytes before the terminator that pass `isboardchar`. -/
def boardChars (s : List Int) : List Int :=
  (s.takeWhile (fun c => c != 0)).filter isboardchar

/-- The calls of `sudoku_cell_redraw_canvas` that `sudoku_cell_set_val`
makes, each given by the cell it is called on. -/
def sudoku_cell_set_val_redraws (cell : SudokuCell) (val mode : Int) :
    List SudokuCell :=
  let val := Int.land val ALL
  if cell.val ≠ val ∨ cell.mode ≠ mode then
    [{ cell with val := val, mode := mode }]
  else
    []

/-- The boards a program can get to: a board made by `sudoku_board_new`,
then any `set_val` calls, key presses on cells and runs of
`sudoku_dialog_set`, with the toolkit showing the board (every cell gets a
window) or giving and taking the windows of cells at any point between. -/
inductive Reachable : SudokuBoard → Prop
  | new (editable : Bool) : Reachable (sudoku_board_new editable)
  | shown (b : SudokuBoard) : Reachable b → Reachable (show_all b)
  | windows (b : SudokuBoard) (f : Fin 9 → Fin 9 → Bool) :
      Reachable b →
      Reachable { board := fun r c => { b.board r c with window := f r c } }
  | set_val (b : SudokuBoard) (row col val mode : Int) :
      Reachable b → Reachable (sudoku_board_set_val b row col val mode).1
  | key_press (b : SudokuBoard) (e : KeyEvent) :
      Reachable b → Reachable (board_key_press b e).1
  | dialog_set (b : SudokuBoard) (s : Option (List Int)) (g : SudokuBoard)
      (eff : List Effect) :
      Reachable b → sudoku_dialog_set b s = some (g, eff) → Reachable g

/-! ## sudokucell.c: the drawing routines

The doubles of the drawing code are taken as exact rationals; what is drawn
is the list of calls made on the cairo context. -/

/-- Relative thickness of the outside lines: `#define OUTSIDE 4`. -/
def OUTSIDE : ℚ := 4

/-- Relative thickness of the inside lines: `#define INSIDE 2`. -/
def INSIDE : ℚ := 2

/-- Relative distance to move text: `#define OFFSET 1`. -/
def OFFSET : ℚ := 1

/-- The calls `draw` and `draw_square` make on the cairo context. -/
inductive Cairo
  | set_line_width (width : ℚ)
  | move_to (x y : ℚ)
  | line_to (x y : ℚ)
  | rectangle (x y width height : ℚ)
  | stroke
  | translate (tx ty : ℚ)
  | set_source_rgb (red green blue : ℚ)
  | scale (sx sy : ℚ)
  /-- The call `scale_zero(cr, cell_w, cell_h)`, which scales by the font's
  height of the numeral zero. -/
  | scale_zero (cell_w cell_h : ℚ)
  /-- The call `draw_centered(cr, utf8)`, with the bytes of the string. -/
  | draw_centered (utf8 : List Int)
  /-- The call `cairo_arc(cr, x, y, radius, 0, pi)` with `pi = 8 * atan2(1, 1)`,
  a full circle. -/
  | arc (xc yc radius : ℚ)
  | fill
  deriving DecidableEq

/-- The line width, current point and current path of a cairo context, the
path as its straight segments. -/
structure Pen where
  width : ℚ
  cur : Option (ℚ × ℚ)
  path : List ((ℚ × ℚ) × (ℚ × ℚ))

/-- What one call does to the line width and the path. -/
def Pen.step (pen : Pen) : Cairo → Pen
  | Cairo.set_line_width w => { pen with width := w }
  | Cairo.move_to x y => { pen with cur := some (x, y) }
  | Cairo.line_to x y =>
    match pen.cur with
    | some p => { pen with path := pen.path ++ [(p, (x, y))], cur := some (x, y) }
    | none => { pen with cur := some (x, y) }
  | Cairo.rectangle x y w h =>
    { pen with
      path := pen.path ++ [((x, y), (x + w, y)), ((x + w, y), (x + w, y + h)),
        ((x + w, y + h), (x, y + h)), ((x, y + h), (x, y))],
      cur := some (x, y) }
  | Cairo.stroke => { pen with path := [], cur := none }
  | Cairo.fill => { pen with path := [], cur := none }
  | _ => pen

/-- The context a drawing routine starts from: the given line width and an
empty path. -/
def Pen.start (line_w : ℚ) : Pen :=
  { width := line_w, cur := none, path := [] }

/-- The result of `cairo_get_line_width(cr)` after the calls `ops` on a
context that started with line width `line_w`. -/
def cairo_get_line_width (line_w : ℚ) (ops : List Cairo) : ℚ :=
  (ops.foldl Pen.step (Pen.start line_w)).width

/-- The segments stroked by a list of calls, each with the line width it is
stroked at. -/
def strokesFrom : Pen → List Cairo → List (ℚ × ((ℚ × ℚ) × (ℚ × ℚ)))
  | _, [] => []
  | pen, Cairo.stroke :: rest =>
    pen.path.map (fun sg => (pen.width, sg)) ++ strokesFrom (pen.step Cairo.stroke) rest
  | pen, op :: rest => strokesFrom (pen.step op) rest

/-- The segments stroked by a drawing routine entered with line width
`line_w`. -/
def strokes (line_w : ℚ) (ops : List Cairo) : List (ℚ × ((ℚ × ℚ) × (ℚ × ℚ))) :=
  strokesFrom (Pen.start line_w) ops

/-- The four edges of a cell. -/
inductive Edge
  | top
  | bottom
  | left
  | right
  deriving DecidableEq

/-- The end points of an edge of a cell `cell_w` wide and `cell_h` high. -/
def Edge.ends (e : Edge) (cell_w cell_h : ℚ) : (ℚ × ℚ) × (ℚ × ℚ) :=
  match e with
  | Edge.top => ((0, 0), (cell_w, 0))
  | Edge.bottom => ((0, cell_h), (cell_w, cell_h))
  | Edge.left => ((0, 0), (0, cell_h))
  | Edge.right => ((cell_w, 0), (cell_w, cell_h))

/-- Whether the edge is among the stroked segments, in either direction,
with the given line width. -/
def strokesEdge (ss : List (ℚ × ((ℚ × ℚ) × (ℚ × ℚ)))) (weight cell_w cell_h : ℚ)
    (e : Edge) : Bool :=
  ss.any (fun s => decide (s.1 = weight ∧
    (s.2 = e.ends cell_w cell_h ∨
      s.2 = ((e.ends cell_w cell_h).2, (e.ends cell_w cell_h).1))))

/-- The strings drawn by `draw_centered`, in order. -/
def texts (ops : List Cairo) : List (List Int) :=
  ops.filterMap (fun op => match op with
    | Cairo.draw_centered t => some t
    | _ => none)

/-- The centres of the discs drawn by `cairo_arc`, in order. -/
def dots (ops : List Cairo) : List (ℚ × ℚ) :=
  ops.filterMap (fun op => match op with
    | Cairo.arc x y _ => some (x, y)
    | _ => none)

/-- Source `draw_square`, entered with `cairo_get_line_width(cr)` equal to
`line_w`. -/
def draw_square (priv : SudokuCell) (cell_w cell_h line_w : ℚ) : List Cairo :=
  let row := Int.tmod priv.row SIDES
  let col := Int.tmod priv.col SIDES
  [Cairo.set_line_width (INSIDE * line_w)] ++
  (if row = 0 then
    if col = 0 then
      [Cairo.move_to 0 cell_h, Cairo.line_to 0 0, Cairo.line_to cell_w 0, Cairo.stroke]
    else if col = 1 then
      [Cairo.move_to 0 cell_h, Cairo.line_to 0 0, Cairo.line_to cell_w 0,
        Cairo.line_to cell_w cell_h, Cairo.stroke]
    else if col = 2 then
      [Cairo.move_to 0 0, Cairo.line_to cell_w 0, Cairo.line_to cell_w cell_h, Cairo.stroke]
    else []
  else if row = 1 then
    if col = 0 then
      [Cairo.move_to cell_w 0, Cairo.line_to 0 0, Cairo.line_to 0 cell_h,
        Cairo.line_to cell_w cell_h, Cairo.stroke]
    else if col = 1 then
      [Cairo.rectangle 0 0 cell_w cell_h, Cairo.stroke]
    else if col = 2 then
      [Cairo.move_to 0 0, Cairo.line_to cell_w 0, Cairo.line_to cell_w cell_h,
        Cairo.line_to 0 cell_h, Cairo.stroke]
    else []
  else if row = 2 then
    if col = 0 then
      [Cairo.move_to 0 0, Cairo.line_to 0 cell_h, Cairo.line_to cell_w cell_h, Cairo.stroke]
    else if col = 1 then
      [Cairo.move_to 0 0, Cairo.line_to 0 cell_h, Cairo.line_to cell_w cell_h,
        Cairo.line_to cell_w 0, Cairo.stroke]
    else if col = 2 then
      [Cairo.move_to cell_w 0, Cairo.line_to cell_w cell_h, Cairo.line_to 0 cell_h,
        Cairo.stroke]
    else []
  else []) ++
  [Cairo.set_line_width line_w]

/-- The `switch (priv->row)` of `draw`: the calls for the outer border above
or below the cell, and the new `y`. -/
def draw_rows (row : Int) (cell_w cell_h line_w y : ℚ) : List Cairo × ℚ :=
  if row = 0 then
    ([Cairo.set_line_width (OUTSIDE * line_w), Cairo.move_to 0 0, Cairo.line_to cell_w 0,
        Cairo.stroke, Cairo.set_line_width line_w],
      y + OFFSET * line_w)
  else if row = 3 ∨ row = 6 then
    ([], y + (1 / 2) * OFFSET * line_w)
  else if row = 8 then
    ([Cairo.set_line_width (OUTSIDE * line_w), Cairo.move_to 0 cell_h,
        Cairo.line_to cell_w cell_h, Cairo.stroke, Cairo.set_line_width line_w],
      y - OFFSET * line_w)
  else if row = 5 ∨ row = 2 then
    ([], y - (1 / 2) * OFFSET * line_w)
  else ([], y)

/-- The `switch (priv->col)` of `draw`: the calls for the outer border left
or right of the cell, and the new `x`. -/
def draw_cols (col : Int) (cell_w cell_h line_w x : ℚ) : List Cairo × ℚ :=
  if col = 0 then
    ([Cairo.set_line_width (OUTSIDE * line_w), Cairo.move_to 0 0, Cairo.line_to 0 cell_h,
        Cairo.stroke, Cairo.set_line_width line_w],
      x + OFFSET * line_w)
  else if col = 3 ∨ col = 6 then
    ([], x + (1 / 2) * OFFSET * line_w)
  else if col = 8 then
    ([Cairo.set_line_width (OUTSIDE * line_w), Cairo.move_to cell_w 0,
        Cairo.line_to cell_w cell_h, Cairo.stroke, Cairo.set_line_width line_w],
      x - OFFSET * line_w)
  else if col = 5 ∨ col = 2 then
    ([], x - (1 / 2) * OFFSET * line_w)
  else ([], x)

/-- The end of `draw`, from `int val = priv->val;` on: the glyph. -/
def draw_glyph (priv : SudokuCell) (cell_w cell_h : ℚ) : List Cairo :=
  let val := priv.val
  if val = 0 then
    [Cairo.set_source_rgb 1 0 0, Cairo.scale_zero cell_w cell_h, Cairo.draw_centered [63]]
  else
    match (if priv.mode = 0 then
        (List.range DIGITS.toNat).find? (fun d : Nat => val == 1 <<< (d : Int))
      else none) with
    | some d => [Cairo.scale_zero cell_w cell_h, Cairo.draw_centered [49 + (d : Int)]]
    | none =>
      if val = ALL then []
      else
        [Cairo.scale (cell_w / 4) (cell_h / 4)] ++
        (List.range DIGITS.toNat).flatMap (fun d : Nat =>
          if Int.land val (1 <<< (d : Int)) ≠ 0 then
            [Cairo.arc ((Int.tmod (d : Int) SIDES - 1 : Int) : ℚ)
                ((Int.tdiv (d : Int) SIDES - 1 : Int) : ℚ) (1 / 4),
              Cairo.fill]
          else [])

/-- Source `draw`, entered with `cairo_get_line_width(cr)` equal to `line_w`
on a widget allocated `cell_w` by `cell_h`. -/
def draw (priv : SudokuCell) (cell_w cell_h line_w : ℚ) : List Cairo :=
  let x := cell_w / 2
  let y := cell_h / 2
  let rows := draw_rows priv.row cell_w cell_h line_w y
  let cols := draw_cols priv.col cell_w cell_h line_w x
  rows.1 ++ cols.1 ++
    draw_square priv cell_w cell_h (cairo_get_line_width line_w (rows.1 ++ cols.1)) ++
    [Cairo.translate cols.2 rows.2] ++
    draw_glyph priv cell_w cell_h

/-- The place of the dot for bit `d` on the three by three sub-grid:
`(d mod 3 - 1, d div 3 - 1)`. -/
def dotPos (d : Nat) : ℚ × ℚ :=
  (((d % 3 : Nat) : ℚ) - 1, ((d / 3 : Nat) : ℚ) - 1)

/-- Whether `draw` strokes the edge `e` of the cell at the weight of the
outside lines, `OUTSIDE * line_w`. -/
def outerEdge (priv : SudokuCell) (cell_w cell_h line_w : ℚ) (e : Edge) : Bool :=
  strokesEdge (strokes line_w (draw priv cell_w cell_h line_w)) (OUTSIDE * line_w)
    cell_w cell_h e

/-- Whether `draw_square` strokes the edge `e` of the cell at the weight of
the inside lines, `INSIDE * line_w`. -/
def squareEdge (priv : SudokuCell) (cell_w cell_h line_w : ℚ) (e : Edge) : Bool :=
  strokesEdge (strokes line_w (draw_square priv cell_w cell_h line_w)) (INSIDE * line_w)
    cell_w cell_h e

/-- The displacement of the glyph for the row or column index `i`, in units
of `OFFSET * line_w`: 1 at the first index, -1 at the last, a half just
after a block boundary, minus a half just before one, otherwise 0. -/
def nudge (i : Int) : ℚ :=
  if i = 0 then 1
  else if i = 8 then -1
  else if i = 3 ∨ i = 6 then 1 / 2
  else if i = 2 ∨ i = 5 then -(1 / 2)
  else 0

/-- The origin the glyph is drawn at: the arguments of the first
`cairo_translate`. -/
def origin (ops : List Cairo) : Option (ℚ × ℚ) :=
  ops.findSome? (fun op => match op with
    | Cairo.translate tx ty => some (tx, ty)
    | _ => none)

/-- The length of a string as `strlen` sees it: the bytes before the first
zero. -/
def strlen (s : List Int) : Nat :=
  (s.takeWhile (fun c => c != 0)).length

/-- The body of the loop of `sudoku_dialog_set` with a record of the offset
it reads `*board` at. -/
def dialog_set_body_traced (s : List Int) (row col : Nat)
    (acc : SetState × List Nat) : Option (SetState × List Nat) :=
  match dialog_set_body s row col acc.1 with
  | none => none
  | some st => some (st, acc.2 ++ [acc.1.pos])

/-- The inner loop of `sudoku_dialog_set` with the record of its reads. -/
def dialog_set_row_traced (s : List Int) (acc : SetState × List Nat) (row : Nat) :
    Option (SetState × List Nat) :=
  (List.range DIGITS.toNat).foldlM (fun a col => dialog_set_body_traced s row col a) acc

/-- Source `sudoku_dialog_set` with the offsets its loop reads `*board` at, in
the order of the reads. -/
def sudoku_dialog_set_traced (widget : SudokuBoard) (board : Option (List Int)) :
    Option ((SudokuBoard × List Effect) × List Nat) :=
  if boardlen board ≠ (DIGITS * DIGITS).toNat then some ((widget, []), [])
  else
    match board with
    | none => none
    | some s =>
      ((List.range DIGITS.toNat).foldlM (dialog_set_row_traced s)
          ({ widget := widget, pos := 0, effects := [] }, [])).map
        (fun a => ((a.1.widget, a.1.effects), a.2))

/-! ## interp.c and gtksudoku.c: saving a board -/

/-- What the Lua side of `interp_save` gives: whether `lua_pcall` reports an
error, and what `lua_tostring(L, -1)` then returns, `none` being the null
pointer it returns for a value that is not a string. -/
structure LuaSave where
  failed : Bool
  top : Option (List Int)

/-- Source `clone` of interp.c: null for null, otherwise a fresh copy; the
result `none` is the `exit(1)` after a failed `malloc`. -/
def clone (mallocOk : Bool) (src : Option (List Int)) : Option (Option (List Int)) :=
  match src with
  | none => some none
  | some str => if mallocOk then some (some str) else none

/-- Source `interp_save`: the returned message and the pointer stored in
`*board`; `none` when the program exits in `clone`. -/
def interp_save (lua : LuaSave) (mallocOk : Bool) :
    Option (Option (List Int) × Option (List Int)) :=
  if lua.failed then
    (clone mallocOk lua.top).map (fun msg => (msg, none))
  else
    (clone mallocOk lua.top).map (fun board => (none, board))

/-- The calls `save_file` makes on the file and on the status line. -/
inductive SaveCall
  /-- The call `fputs(board, out)`. -/
  | fputs (board : List Int)
  /-- The call `fclose(out)`. -/
  | fclose
  /-- The call `gtk_entry_set_text(status, text)`. -/
  | entry_set_text (text : List Int)
  /-- The call `free` on a string. -/
  | free (str : Option (List Int))
  deriving DecidableEq

/-- How `save_file` ends. -/
inductive SaveResult
  /-- The program exited in `clone`. -/
  | exited
  /-- The null pointer was dereferenced. -/
  | null_dereference
  /-- It returned after these calls. -/
  | returned (calls : List SaveCall)
  deriving DecidableEq

/-- Source `set_status`. -/
def set_status (malloced_message : Option (List Int)) : List SaveCall :=
  match malloced_message with
  | some m => [SaveCall.entry_set_text m, SaveCall.free (some m)]
  | none => [SaveCall.entry_set_text []]

/-- The bytes of the string `"failed to open file"`. -/
def failed_to_open : List Int :=
  "failed to open file".toList.map (fun c => (c.toNat : Int))

/-- Source `save_file`; `fopenOk` says whether `g_fopen` succeeds. -/
def save_file (lua : LuaSave) (mallocOk fopenOk : Bool) : SaveResult :=
  match interp_save lua mallocOk with
  | none => SaveResult.exited
  | some (msg, board) =>
    match board with
    | none => SaveResult.null_dereference
    | some b =>
      if deref b 0 ≠ some 0 then
        if !fopenOk then
          SaveResult.returned
            [SaveCall.entry_set_text failed_to_open, SaveCall.free (some b), SaveCall.free msg]
        else
          SaveResult.returned
            ([SaveCall.fputs b, SaveCall.fclose, SaveCall.free (some b)] ++ set_status msg)
      else
        SaveResult.returned (set_status msg)

/-! ## Arithmetic of the constants -/

theorem DIGITS_eq : DIGITS = 9 := rfl

theorem ALL_eq : ALL = 511 := rfl

theorem DIGITS_toNat : DIGITS.toNat = 9 := rfl

theorem ldiff_511 (n : Nat) : Nat.ldiff 511 n = 511 - n % 512 := by
  apply Nat.eq_of_testBit_eq
  intro i
  have h1 : n % 512 < 2 ^ 9 := Nat.mod_lt _ (by norm_num)
  have h2 : 511 - n % 512 = 2 ^ 9 - (n % 512 + 1) := by omega
  rw [Nat.testBit_ldiff, h2, Nat.testBit_two_pow_sub_succ h1]
  have h3 : (511 : Nat) = 2 ^ 9 - 1 := by norm_num
  have h4 : (512 : Nat) = 2 ^ 9 := by norm_num
  rw [h3, Nat.testBit_two_pow_sub_one, h4, Nat.testBit_mod_two_pow]
  cases decide (i < 9) <;> simp

/-- Masking with `ALL` is reduction modulo 512, for negative operands too. -/
theorem land_ALL (v : Int) : Int.land v ALL = v % 512 := by
  rw [ALL_eq]
  cases v with
  | ofNat n =>
    show ((n &&& 511 : Nat) : Int) = (n : Int) % 512
    have h := Nat.and_pow_two_sub_one_eq_mod n 9
    norm_num at h
    rw [h]
    norm_cast
  | negSucc n =>
    show ((Nat.ldiff 511 n : Nat) : Int) = Int.negSucc n % 512
    rw [ldiff_511, Int.negSucc_emod n (by norm_num : (0 : Int) < 512)]
    omega

/-- Every integer between 0 and 511 is one of the 512 candidate sets. -/
theorem candidate_cases (v : Int) (h0 : 0 ≤ v) (h1 : v ≤ 511) :
    ∃ n : Fin 512, v = ((n : Nat) : Int) :=
  ⟨⟨v.toNat, by omega⟩, (Int.toNat_of_nonneg h0).symm⟩

set_option maxRecDepth 100000 in
theorem val2boardchar_table : ∀ n : Fin 512,
    (∀ d : Nat, d ≤ 8 → onlyBit ((n : Nat) : Int) d = true →
      val2boardchar ((n : Nat) : Int) = 49 + (d : Int)) ∧
    ((∀ d : Nat, d ≤ 8 → onlyBit ((n : Nat) : Int) d = false) →
      val2boardchar ((n : Nat) : Int) = 46) ∧
    (((n : Nat) : Int) = 0 → val2boardchar ((n : Nat) : Int) = 46) ∧
    (2 ≤ bitCount ((n : Nat) : Int) → val2boardchar ((n : Nat) : Int) = 46) ∧
    (((n : Nat) : Int) = 0 ∨ 2 ≤ bitCount ((n : Nat) : Int) ∨
      ∃ d : Nat, d ≤ 8 ∧ onlyBit ((n : Nat) : Int) d = true) := by
  decide

/-- C3: on a candidate set `0 ≤ v ≤ 511`, `val2boardchar` returns `'1' + d`
when bit `d` is the only bit set, and `'.'` in every other case, that is for
`v = 0` and for every `v` with two or more bits set; these cases cover all
of the range. -/
theorem val2boardchar_singleton_or_dot (v : Int) (h0 : 0 ≤ v) (h1 : v ≤ 511) :
    (∀ d : Nat, d ≤ 8 → onlyBit v d = true → val2boardchar v = 49 + (d : Int)) ∧
    ((∀ d : Nat, d ≤ 8 → onlyBit v d = false) → val2boardchar v = 46) ∧
    (v = 0 → val2boardchar v = 46) ∧
    (2 ≤ bitCount v → val2boardchar v = 46) ∧
    (v = 0 ∨ 2 ≤ bitCount v ∨ ∃ d : Nat, d ≤ 8 ∧ onlyBit v d = true) := by
  obtain ⟨n, rfl⟩ := candidate_cases v h0 h1
  exact val2boardchar_table n

theorem val2boardchar_singleton_or_dot_witness :
    ((0 : Int) ≤ 16 ∧ (16 : Int) ≤ 511) ∧
    ((∀ d : Nat, d ≤ 8 → onlyBit 16 d = true → val2boardchar 16 = 49 + (d : Int)) ∧
    ((∀ d : Nat, d ≤ 8 → onlyBit 16 d = false) → val2boardchar 16 = 46) ∧
    ((16 : Int) = 0 → val2boardchar 16 = 46) ∧
    (2 ≤ bitCount 16 → val2boardchar 16 = 46) ∧
    ((16 : Int) = 0 ∨ 2 ≤ bitCount 16 ∨ ∃ d : Nat, d ≤ 8 ∧ onlyBit 16 d = true)) :=
  ⟨by decide, val2boardchar_singleton_or_dot 16 (by decide) (by decide)⟩

set_option maxRecDepth 100000 in
theorem roundtrip_table : ∀ n : Fin 512,
    (boardchar2val (val2boardchar ((n : Nat) : Int)) = ((n : Nat) : Int) ↔
      (bitCount ((n : Nat) : Int) = 1 ∨ ((n : Nat) : Int) = ALL)) ∧
    ((((n : Nat) : Int) = 0 ∨
        (2 ≤ bitCount ((n : Nat) : Int) ∧ bitCount ((n : Nat) : Int) ≤ 8)) →
      boardchar2val (val2boardchar ((n : Nat) : Int)) = ALL ∧
        ALL ≠ ((n : Nat) : Int)) := by
  decide

/-- C4: on a candidate set `0 ≤ v ≤ 511`, `boardchar2val (val2boardchar v)`
is `v` exactly when `v` has one bit set or is `ALL`; for `v = 0` and for
every `v` with 2 to 8 bits set the round trip gives `ALL`, which is not `v`. -/
theorem roundtrip_val_iff (v : Int) (h0 : 0 ≤ v) (h1 : v ≤ 511) :
    (boardchar2val (val2boardchar v) = v ↔ (bitCount v = 1 ∨ v = ALL)) ∧
    ((v = 0 ∨ (2 ≤ bitCount v ∧ bitCount v ≤ 8)) →
      boardchar2val (val2boardchar v) = ALL ∧ ALL ≠ v) := by
  obtain ⟨n, rfl⟩ := candidate_cases v h0 h1
  exact roundtrip_table n

theorem roundtrip_val_iff_witness :
    ((0 : Int) ≤ 6 ∧ (6 : Int) ≤ 511) ∧
    ((boardchar2val (val2boardchar 6) = 6 ↔ (bitCount 6 = 1 ∨ (6 : Int) = ALL)) ∧
    (((6 : Int) = 0 ∨ (2 ≤ bitCount 6 ∧ bitCount 6 ≤ 8)) →
      boardchar2val (val2boardchar 6) = ALL ∧ ALL ≠ (6 : Int))) :=
  ⟨by decide, roundtrip_val_iff 6 (by decide) (by decide)⟩

theorem isboardchar_iff (c : Int) :
    isboardchar c = true ↔ (c = 46 ∨ (49 ≤ c ∧ c ≤ 57)) := by
  simp [isboardchar]

/-- C5: every board character, `'.'` or `'1'` to `'9'`, comes back from
`val2boardchar (boardchar2val c)`; the digit `d` goes through the singleton
`2 ^ (d - 1)` and `'.'` goes through `ALL`. -/
theorem roundtrip_char (c : Int) (hc : isboardchar c = true) :
    val2boardchar (boardchar2val c) = c ∧
    (∀ d : Nat, 1 ≤ d → d ≤ 9 → c = 48 + (d : Int) →
      boardchar2val c = 2 ^ (d - 1) ∧ val2boardchar (2 ^ (d - 1)) = c) ∧
    (c = 46 → boardchar2val c = ALL ∧ val2boardchar ALL = c) := by
  rw [isboardchar_iff] at hc
  rcases hc with rfl | ⟨h1, h2⟩
  · refine ⟨by decide, ?_, fun _ => by decide⟩
    intro d _ _ h
    omega
  · refine ⟨?_, ?_, fun h => by omega⟩
    · interval_cases c <;> decide
    · intro d hd1 hd2 h
      have hd : d = (c - 48).toNat := by omega
      subst hd
      interval_cases c <;> decide

theorem roundtrip_char_witness :
    isboardchar 53 = true ∧
    (val2boardchar (boardchar2val 53) = 53 ∧
    (∀ d : Nat, 1 ≤ d → d ≤ 9 → (53 : Int) = 48 + (d : Int) →
      boardchar2val 53 = 2 ^ (d - 1) ∧ val2boardchar (2 ^ (d - 1)) = 53) ∧
    ((53 : Int) = 46 → boardchar2val 53 = ALL ∧ val2boardchar ALL = 53)) :=
  ⟨by decide, roundtrip_char 53 (by decide)⟩

/-- C6: `boardchar2val c` is `1 << (c - '1')` for `'1' ≤ c ≤ '9'` and `ALL`
(511) for every other character code, among them `'.'`, `'0'`, the space and
the letters; so the result is a singleton or `ALL`, never 0, and within the
nine-bit range. -/
theorem boardchar2val_spec (c : Int) :
    boardchar2val c = (if 49 ≤ c ∧ c ≤ 57 then 2 ^ (c - 49).toNat else 511) ∧
    (boardchar2val c = ALL ∨ ∃ d : Nat, d ≤ 8 ∧ onlyBit (boardchar2val c) d = true) ∧
    boardchar2val c ≠ 0 ∧ 0 ≤ boardchar2val c ∧ boardchar2val c ≤ 511 ∧
    boardchar2val 46 = 511 ∧ boardchar2val 48 = 511 ∧ boardchar2val 32 = 511 ∧
    boardchar2val 97 = 511 := by
  refine ⟨?_, ?_, ?_, ?_, ?_, by decide, by decide, by decide, by decide⟩
  all_goals
    by_cases h : 49 ≤ c ∧ c ≤ 57
    · obtain ⟨h1, h2⟩ := h
      interval_cases c <;> decide
    · have hv : boardchar2val c = 511 := by
        unfold boardchar2val
        rw [if_neg (by simpa using h)]
        rfl
      first
        | rw [hv, if_neg h]
        | exact Or.inl hv
        | omega

theorem boardlenLoop_eq (s : List Int) (hs : ∀ c ∈ s, c ≠ 0) (n : Nat) :
    boardlenLoop s n = n + s.countP isboardchar := by
  induction s generalizing n with
  | nil => simp [boardlenLoop]
  | cons c rest ih =>
    have hc : c ≠ 0 := hs c (List.mem_cons_self c rest)
    have hrest : ∀ x ∈ rest, x ≠ 0 := fun x hx => hs x (List.mem_cons_of_mem c hx)
    rw [boardlenLoop, if_neg hc, ih hrest, List.countP_cons]
    by_cases hb : isboardchar c = true
    · simp [hb]; omega
    · simp [hb]

theorem boardlenLoop_le (s : List Int) (n : Nat) :
    boardlenLoop s n ≤ n + s.length := by
  induction s generalizing n with
  | nil => simp [boardlenLoop]
  | cons c rest ih =>
    rw [boardlenLoop]
    split
    · omega
    · simp only [List.length_cons]
      by_cases hb : isboardchar c = true
      · rw [if_pos hb]
        have h := ih (n + 1)
        omega
      · rw [if_neg hb]
        have h := ih n
        omega

/-- C7: for a string `s` (its bytes exclude the terminator), `boardlen`
is the number of positions that hold `'.'` or a digit `'1'` to `'9'`,
wherever they stand; `'0'` is not counted; the null string gives 0; and
`boardlen("1.2\n3..")` is 6. -/
theorem boardlen_counts (s : List Int) (hs : ∀ c ∈ s, c ≠ 0) :
    boardlen (some s) = s.countP (fun c => decide (c = 46 ∨ (49 ≤ c ∧ c ≤ 57))) ∧
    boardlen none = 0 ∧
    isboardchar 48 = false ∧
    boardlen (some [49, 46, 50, 10, 51, 46, 46]) = 6 := by
  refine ⟨?_, rfl, by decide, by decide⟩
  have h : (fun c : Int => decide (c = 46 ∨ (49 ≤ c ∧ c ≤ 57))) = isboardchar := by
    funext c
    rw [Bool.eq_iff_iff, isboardchar_iff]
    simp
  rw [h]
  show boardlenLoop s 0 = _
  rw [boardlenLoop_eq s hs 0, Nat.zero_add]

theorem boardlen_counts_witness :
    (∀ c ∈ [49, 48, 46, 32, 57, 10], c ≠ (0 : Int)) ∧
    (boardlen (some [49, 48, 46, 32, 57, 10]) =
      [49, 48, 46, 32, 57, 10].countP (fun c => decide (c = 46 ∨ (49 ≤ c ∧ c ≤ 57))) ∧
    boardlen none = 0 ∧
    isboardchar 48 = false ∧
    boardlen (some [49, 46, 50, 10, 51, 46, 46]) = 6) :=
  ⟨by decide, boardlen_counts [49, 48, 46, 32, 57, 10] (by decide)⟩

/-! ## Cells -/

theorem keyDigit_eq (digit : Int) :
    keyDigit digit = if 1 ≤ digit ∧ digit ≤ 9 then 2 ^ (digit - 1).toNat else 511 := by
  unfold keyDigit
  by_cases h : 1 ≤ digit ∧ digit ≤ 9
  · rw [if_pos h, if_pos (by simpa using h)]
    obtain ⟨h1, h2⟩ := h
    interval_cases digit <;> decide
  · rw [if_neg h, if_neg (by simpa using h)]
    rfl

theorem land_keyDigit (digit : Int) : Int.land (keyDigit digit) ALL = keyDigit digit := by
  rw [land_ALL, keyDigit_eq]
  by_cases h : 1 ≤ digit ∧ digit ≤ 9
  · rw [if_pos h]
    obtain ⟨h1, h2⟩ := h
    interval_cases digit <;> decide
  · rw [if_neg h]
    decide

theorem sudoku_cell_set_val_cell (cell : SudokuCell) (val mode : Int) :
    (sudoku_cell_set_val cell val mode).1 =
      { cell with val := Int.land val ALL, mode := mode } := by
  unfold sudoku_cell_set_val
  by_cases h : cell.val ≠ Int.land val ALL ∨ cell.mode ≠ mode
  · simp only [if_pos h]
  · simp only [if_neg h]
    have h1 : cell.val = Int.land val ALL := by
      by_contra hne
      exact h (Or.inl hne)
    have h2 : cell.mode = mode := by
      by_contra hne
      exact h (Or.inr hne)
    cases cell
    simp only at h1 h2
    subst h1 h2
    rfl

theorem notifications_redraw (cell : SudokuCell) :
    notifications (sudoku_cell_redraw_canvas cell) = [] := by
  unfold sudoku_cell_redraw_canvas notifications
  cases cell.window <;> simp

theorem notifications_set_val (cell : SudokuCell) (val mode : Int) :
    notifications (sudoku_cell_set_val cell val mode).2 = [] := by
  by_cases h : cell.val ≠ Int.land val ALL ∨ cell.mode ≠ mode
  · simp only [sudoku_cell_set_val, if_pos h]
    exact notifications_redraw _
  · simp only [sudoku_cell_set_val, if_neg h]
    rfl

theorem notifications_append (a b : List Effect) :
    notifications (a ++ b) = notifications a ++ notifications b := by
  simp [notifications]

theorem pressed_key_cell (cell : SudokuCell) (digit : Int) :
    (pressed_key cell digit).cell = { cell with val := keyDigit digit, mode := 0 } := by
  show (sudoku_cell_set_val cell (keyDigit digit) 0).1 = _
  rw [sudoku_cell_set_val_cell, land_keyDigit]

theorem pressed_key_notifications (cell : SudokuCell) (digit : Int) :
    notifications (pressed_key cell digit).effects =
      if keyDigit digit ≠ cell.val then
        [Effect.changed cell.row cell.col (keyDigit digit) 0]
      else [] := by
  show notifications ((sudoku_cell_set_val cell (keyDigit digit) 0).2 ++
    (if keyDigit digit ≠ cell.val then
      [Effect.changed (sudoku_cell_set_val cell (keyDigit digit) 0).1.row
        (sudoku_cell_set_val cell (keyDigit digit) 0).1.col
        (sudoku_cell_set_val cell (keyDigit digit) 0).1.val
        (sudoku_cell_set_val cell (keyDigit digit) 0).1.mode]
    else [])) = _
  rw [notifications_append, notifications_set_val, sudoku_cell_set_val_cell, land_keyDigit]
  by_cases h : keyDigit digit ≠ cell.val
  · simp only [if_pos h]
    rfl
  · simp only [if_neg h]
    rfl

/-- A handled key runs `pressed_key` with the digit of the key, 0 for the
period and the space. -/
theorem key_press_handled (cell : SudokuCell) (he : cell.editable = true)
    (keyval : Int) (hk : isHandledKey keyval = true) (bnd : Bool) :
    ∃ d : Int, 0 ≤ d ∧ d ≤ 9 ∧
      sudoku_cell_key_press cell keyval bnd = pressed_key cell d ∧
      (1 ≤ d → keyval = GDK_KEY_1 + (d - 1)) ∧
      (d = 0 → keyval = GDK_KEY_period ∨ keyval = GDK_KEY_space) := by
  have hk1 : (49 ≤ keyval ∧ keyval ≤ 57) ∨ keyval = 46 ∨ keyval = 32 := by
    simp only [isHandledKey, GDK_KEY_1, GDK_KEY_period, GDK_KEY_space] at hk
    simp at hk
    omega
  rcases hk1 with ⟨h1, h2⟩ | rfl | rfl
  · refine ⟨keyval - 48, by omega, by omega, ?_, ?_, ?_⟩
    · interval_cases keyval <;>
        simp [sudoku_cell_key_press, he, GDK_KEY_1, GDK_KEY_period, GDK_KEY_space]
    · intro _
      simp only [GDK_KEY_1]
      omega
    · intro h
      omega
  · refine ⟨0, by omega, by omega, ?_, ?_, ?_⟩
    · simp [sudoku_cell_key_press, he, GDK_KEY_1, GDK_KEY_period, GDK_KEY_space]
    · intro h
      omega
    · intro _
      exact Or.inl rfl
  · refine ⟨0, by omega, by omega, ?_, ?_, ?_⟩
    · simp [sudoku_cell_key_press, he, GDK_KEY_1, GDK_KEY_period, GDK_KEY_space]
    · intro h
      omega
    · intro _
      exact Or.inr rfl

theorem key_press_unhandled (cell : SudokuCell) (keyval : Int)
    (hk : isHandledKey keyval = false) (bnd : Bool) :
    sudoku_cell_key_press cell keyval bnd =
      { cell := cell, effects := [Effect.bindings keyval], ret := bnd } := by
  have hk1 : ¬ ((49 ≤ keyval ∧ keyval ≤ 57) ∨ keyval = 46 ∨ keyval = 32) := by
    simp only [isHandledKey, GDK_KEY_1, GDK_KEY_period, GDK_KEY_space] at hk
    simp at hk
    omega
  have h1 : keyval ≠ 49 := by omega
  have h2 : keyval ≠ 49 + 1 := by omega
  have h3 : keyval ≠ 49 + 2 := by omega
  have h4 : keyval ≠ 49 + 3 := by omega
  have h5 : keyval ≠ 49 + 4 := by omega
  have h6 : keyval ≠ 49 + 5 := by omega
  have h7 : keyval ≠ 49 + 6 := by omega
  have h8 : keyval ≠ 49 + 7 := by omega
  have h9 : keyval ≠ 49 + 8 := by omega
  have h10 : ¬ (keyval = 46 ∨ keyval = 32) := by omega
  simp only [sudoku_cell_key_press, GDK_KEY_1, GDK_KEY_period, GDK_KEY_space,
    if_neg h1, if_neg h2, if_neg h3, if_neg h4, if_neg h5, if_neg h6, if_neg h7,
    if_neg h8, if_neg h9, if_neg h10, ite_self]

/-- C8: on an editable cell in any state, the digit key `k` (`GDK_KEY_1` to
`GDK_KEY_9`) leaves value `1 << (k - 1)` and mode 0, the period and the
space leave value `ALL` and mode 0, and every other key leaves the cell as
it was. -/
theorem key_press_state (cell : SudokuCell) (he : cell.editable = true) (bnd : Bool) :
    (∀ k : Int, 1 ≤ k → k ≤ 9 →
      (sudoku_cell_key_press cell (GDK_KEY_1 + (k - 1)) bnd).cell.val = 2 ^ (k - 1).toNat ∧
      (sudoku_cell_key_press cell (GDK_KEY_1 + (k - 1)) bnd).cell.mode = 0) ∧
    ((sudoku_cell_key_press cell GDK_KEY_period bnd).cell.val = ALL ∧
      (sudoku_cell_key_press cell GDK_KEY_period bnd).cell.mode = 0) ∧
    ((sudoku_cell_key_press cell GDK_KEY_space bnd).cell.val = ALL ∧
      (sudoku_cell_key_press cell GDK_KEY_space bnd).cell.mode = 0) ∧
    (∀ keyval : Int, isHandledKey keyval = false →
      (sudoku_cell_key_press cell keyval bnd).cell = cell) := by
  refine ⟨?_, ?_, ?_, ?_⟩
  · intro k h1 h2
    have hk : isHandledKey (GDK_KEY_1 + (k - 1)) = true := by
      simp only [isHandledKey, GDK_KEY_1, GDK_KEY_period, GDK_KEY_space]
      simp
      omega
    obtain ⟨d, _, _, hd, hd1, hd0⟩ := key_press_handled cell he _ hk bnd
    have hdk : d = k := by
      by_cases h : 1 ≤ d
      · have h3 := hd1 h
        omega
      · have h3 := hd0 (by omega)
        simp only [GDK_KEY_1, GDK_KEY_period, GDK_KEY_space] at h3
        omega
    subst hdk
    rw [hd, pressed_key_cell, keyDigit_eq, if_pos ⟨h1, h2⟩]
    exact ⟨rfl, rfl⟩
  · obtain ⟨d, _, _, hd, hd1, _⟩ := key_press_handled cell he GDK_KEY_period (by decide) bnd
    have hd0 : d = 0 := by
      by_contra h
      have h3 := hd1 (by omega)
      simp only [GDK_KEY_1, GDK_KEY_period] at h3
      omega
    subst hd0
    rw [hd, pressed_key_cell]
    exact ⟨rfl, rfl⟩
  · obtain ⟨d, _, _, hd, hd1, _⟩ := key_press_handled cell he GDK_KEY_space (by decide) bnd
    have hd0 : d = 0 := by
      by_contra h
      have h3 := hd1 (by omega)
      simp only [GDK_KEY_1, GDK_KEY_space] at h3
      omega
    subst hd0
    rw [hd, pressed_key_cell]
    exact ⟨rfl, rfl⟩
  · intro keyval hk
    rw [key_press_unhandled cell keyval hk bnd]

theorem key_press_state_witness :
    (sudoku_cell_new 4 7 true).editable = true ∧
    ((∀ k : Int, 1 ≤ k → k ≤ 9 →
      (sudoku_cell_key_press (sudoku_cell_new 4 7 true) (GDK_KEY_1 + (k - 1)) false).cell.val
          = 2 ^ (k - 1).toNat ∧
      (sudoku_cell_key_press (sudoku_cell_new 4 7 true) (GDK_KEY_1 + (k - 1)) false).cell.mode
          = 0) ∧
    ((sudoku_cell_key_press (sudoku_cell_new 4 7 true) GDK_KEY_period false).cell.val = ALL ∧
      (sudoku_cell_key_press (sudoku_cell_new 4 7 true) GDK_KEY_period false).cell.mode = 0) ∧
    ((sudoku_cell_key_press (sudoku_cell_new 4 7 true) GDK_KEY_space false).cell.val = ALL ∧
      (sudoku_cell_key_press (sudoku_cell_new 4 7 true) GDK_KEY_space false).cell.mode = 0) ∧
    (∀ keyval : Int, isHandledKey keyval = false →
      (sudoku_cell_key_press (sudoku_cell_new 4 7 true) keyval false).cell
        = sudoku_cell_new 4 7 true)) :=
  ⟨by decide, key_press_state (sudoku_cell_new 4 7 true) (by decide) false⟩

/-- C9: on an editable cell, a handled key (digit 1 to 9, period, space)
emits exactly one change notification, carrying the cell's row and column,
the new value and mode 0, when the new value differs from the value before
the press, and none when it is the same, also when the press changed the
mode; pressing the same key again emits none, so two presses in a row emit
at most one. -/
theorem key_press_notifies (cell : SudokuCell) (he : cell.editable = true)
    (keyval : Int) (hk : isHandledKey keyval = true) (bnd : Bool) :
    notifications (sudoku_cell_key_press cell keyval bnd).effects =
      (if (sudoku_cell_key_press cell keyval bnd).cell.val ≠ cell.val then
        [Effect.changed cell.row cell.col
          (sudoku_cell_key_press cell keyval bnd).cell.val 0]
      else []) ∧
    notifications
      (sudoku_cell_key_press (sudoku_cell_key_press cell keyval bnd).cell keyval bnd).effects
      = [] ∧
    (notifications (sudoku_cell_key_press cell keyval bnd).effects ++
      notifications
        (sudoku_cell_key_press (sudoku_cell_key_press cell keyval bnd).cell keyval bnd).effects
      ).length ≤ 1 ∧
    notifications
      (sudoku_cell_key_press { cell with val := 16, mode := 1 } (GDK_KEY_1 + 4) bnd).effects
      = [] ∧
    (sudoku_cell_key_press { cell with val := 16, mode := 1 } (GDK_KEY_1 + 4) bnd).cell.mode
      = 0 := by
  obtain ⟨d, _, _, hd, hx1, hx0⟩ := key_press_handled cell he keyval hk bnd
  have hfirst : notifications (sudoku_cell_key_press cell keyval bnd).effects =
      (if (sudoku_cell_key_press cell keyval bnd).cell.val ≠ cell.val then
        [Effect.changed cell.row cell.col
          (sudoku_cell_key_press cell keyval bnd).cell.val 0]
      else []) := by
    rw [hd, pressed_key_notifications, pressed_key_cell]
  have hsecond : notifications
      (sudoku_cell_key_press (sudoku_cell_key_press cell keyval bnd).cell keyval bnd).effects
      = [] := by
    have hpk : sudoku_cell_key_press (pressed_key cell d).cell keyval bnd =
        pressed_key (pressed_key cell d).cell d := by
      obtain ⟨d3, _, _, hd3, hd31, hd30⟩ :=
        key_press_handled (pressed_key cell d).cell (by rw [pressed_key_cell]; exact he)
          keyval hk bnd
      have hdd : d3 = d := by
        by_cases h3 : 1 ≤ d3
        · have e3 := hd31 h3
          by_cases h1 : 1 ≤ d
          · have e1 := hx1 h1
            omega
          · have e1 := hx0 (by omega)
            simp only [GDK_KEY_1, GDK_KEY_period, GDK_KEY_space] at e1 e3
            omega
        · have e3 := hd30 (by omega)
          by_cases h1 : 1 ≤ d
          · have e1 := hx1 h1
            simp only [GDK_KEY_1, GDK_KEY_period, GDK_KEY_space] at e1 e3
            omega
          · omega
      rw [hd3, hdd]
    rw [hd, hpk, pressed_key_notifications, pressed_key_cell]
    simp
  refine ⟨hfirst, hsecond, ?_, ?_, ?_⟩
  · rw [hsecond, hfirst]
    split <;> simp
  · have he3 : ({ cell with val := 16, mode := 1 } : SudokuCell).editable = true := he
    obtain ⟨d5, _, _, h5, h51, h50⟩ :=
      key_press_handled { cell with val := 16, mode := 1 } he3 (GDK_KEY_1 + 4) (by decide) bnd
    have hd5 : d5 = 5 := by
      by_cases h : 1 ≤ d5
      · have e := h51 h
        omega
      · have e := h50 (by omega)
        simp only [GDK_KEY_1, GDK_KEY_period, GDK_KEY_space] at e
        omega
    rw [h5, hd5, pressed_key_notifications]
    rfl
  · have he3 : ({ cell with val := 16, mode := 1 } : SudokuCell).editable = true := he
    obtain ⟨d5, _, _, h5, _, _⟩ :=
      key_press_handled { cell with val := 16, mode := 1 } he3 (GDK_KEY_1 + 4) (by decide) bnd
    rw [h5, pressed_key_cell]

theorem key_press_notifies_witness :
    ((sudoku_cell_new 2 3 true).editable = true ∧ isHandledKey (GDK_KEY_1 + 4) = true) ∧
    (notifications (sudoku_cell_key_press (sudoku_cell_new 2 3 true) (GDK_KEY_1 + 4) false).effects
      = (if (sudoku_cell_key_press (sudoku_cell_new 2 3 true) (GDK_KEY_1 + 4) false).cell.val
            ≠ (sudoku_cell_new 2 3 true).val then
        [Effect.changed (sudoku_cell_new 2 3 true).row (sudoku_cell_new 2 3 true).col
          (sudoku_cell_key_press (sudoku_cell_new 2 3 true) (GDK_KEY_1 + 4) false).cell.val 0]
      else []) ∧
    notifications
      (sudoku_cell_key_press
        (sudoku_cell_key_press (sudoku_cell_new 2 3 true) (GDK_KEY_1 + 4) false).cell
        (GDK_KEY_1 + 4) false).effects
      = [] ∧
    (notifications (sudoku_cell_key_press (sudoku_cell_new 2 3 true) (GDK_KEY_1 + 4) false).effects
      ++ notifications
        (sudoku_cell_key_press
          (sudoku_cell_key_press (sudoku_cell_new 2 3 true) (GDK_KEY_1 + 4) false).cell
          (GDK_KEY_1 + 4) false).effects
      ).length ≤ 1 ∧
    notifications
      (sudoku_cell_key_press { sudoku_cell_new 2 3 true with val := 16, mode := 1 }
        (GDK_KEY_1 + 4) false).effects
      = [] ∧
    (sudoku_cell_key_press { sudoku_cell_new 2 3 true with val := 16, mode := 1 }
        (GDK_KEY_1 + 4) false).cell.mode
      = 0) :=
  ⟨by decide, key_press_notifies (sudoku_cell_new 2 3 true) (by decide) (GDK_KEY_1 + 4)
    (by decide) false⟩

/-! ## Boards -/

theorem index_of_range (i : Int) (h0 : 0 ≤ i) (h1 : i < 9) :
    index i = some ⟨i.toNat, by omega⟩ := by
  unfold index
  rw [dif_pos ⟨h0, by rw [DIGITS_eq]; exact h1⟩]

theorem index_natCast (n : Nat) (h : n < 9) : index (n : Int) = some ⟨n, h⟩ := by
  rw [index_of_range (n : Int) (by omega) (by omega)]
  simp

theorem store_same (b : SudokuBoard) (r c : Fin 9) (cell : SudokuCell) :
    (b.store r c cell).board r c = cell := by
  simp [SudokuBoard.store]

theorem store_other (b : SudokuBoard) (r c i j : Fin 9) (cell : SudokuCell)
    (h : ¬ (i = r ∧ j = c)) : (b.store r c cell).board i j = b.board i j := by
  simp only [SudokuBoard.store, if_neg h]

theorem board_set_val_in_range (b : SudokuBoard) (row col val mode : Int)
    (hr0 : 0 ≤ row) (hr : row < 9) (hc0 : 0 ≤ col) (hc : col < 9) :
    sudoku_board_set_val b row col val mode =
      (b.store ⟨row.toNat, by omega⟩ ⟨col.toNat, by omega⟩
          (sudoku_cell_set_val (b.board ⟨row.toNat, by omega⟩ ⟨col.toNat, by omega⟩)
            val mode).1,
        (sudoku_cell_set_val (b.board ⟨row.toNat, by omega⟩ ⟨col.toNat, by omega⟩)
            val mode).2) := by
  unfold sudoku_board_set_val
  rw [index_of_range row hr0 hr, index_of_range col hc0 hc]

theorem board_get_val_in_range (b : SudokuBoard) (row col : Int)
    (hr0 : 0 ≤ row) (hr : row < 9) (hc0 : 0 ≤ col) (hc : col < 9) :
    sudoku_board_get_val b row col =
      ((b.board ⟨row.toNat, by omega⟩ ⟨col.toNat, by omega⟩).val, []) := by
  unfold sudoku_board_get_val
  rw [index_of_range row hr0 hr, index_of_range col hc0 hc]
  rfl

/-- C2: for `row`, `col` in `[0, 9)`, any board, any integer `v` (negative
or with bits above bit 8) and any mode, `get_val(row, col)` after
`set_val(row, col, v, mode)` returns `v & 0x1FF`, the residue of `v`
modulo 512. -/
theorem board_set_get (b : SudokuBoard) (row col v mode : Int)
    (hr0 : 0 ≤ row) (hr : row < 9) (hc0 : 0 ≤ col) (hc : col < 9) :
    (sudoku_board_get_val (sudoku_board_set_val b row col v mode).1 row col).1
      = Int.land v 0x1FF ∧
    (sudoku_board_get_val (sudoku_board_set_val b row col v mode).1 row col).1
      = v % 512 := by
  have h : (sudoku_board_get_val (sudoku_board_set_val b row col v mode).1 row col).1
      = Int.land v ALL := by
    rw [board_get_val_in_range _ row col hr0 hr hc0 hc,
      board_set_val_in_range b row col v mode hr0 hr hc0 hc, store_same,
      sudoku_cell_set_val_cell]
  exact ⟨h, by rw [h, land_ALL]⟩

theorem board_set_get_witness :
    (((0 : Int) ≤ 3 ∧ (3 : Int) < 9 ∧ (0 : Int) ≤ 8 ∧ (8 : Int) < 9) ∧
      (sudoku_board_get_val
          (sudoku_board_set_val (sudoku_board_new false) 3 8 (-5) 1).1 3 8).1
        = Int.land (-5) 0x1FF ∧
      (sudoku_board_get_val
          (sudoku_board_set_val (sudoku_board_new false) 3 8 (-5) 1).1 3 8).1
        = -5 % 512) ∧
    (sudoku_board_get_val
        (sudoku_board_set_val (sudoku_board_new true) 0 0 1541 0).1 0 0).1 = 5 :=
  ⟨⟨by decide,
      board_set_get (sudoku_board_new false) 3 8 (-5) 1 (by decide) (by decide)
        (by decide) (by decide)⟩,
    by decide⟩

/-! ## The edit dialog -/

theorem deref_lt (s : List Int) (i : Nat) (h : i < s.length) :
    deref s i = some (s.getD i 0) := by
  unfold deref
  rw [List.getElem?_append_left h, List.getD_eq_getElem?_getD, List.getElem?_eq_getElem h]
  rfl

theorem dialog_set_body_lt (s : List Int) (row col : Nat) (hrow : row < 9)
    (hcol : col < 9) (st : SetState) (h : st.pos < s.length) :
    ∃ st1, dialog_set_body s row col st = some st1 ∧ st1.pos = st.pos + 1 ∧
      ∀ i j : Fin 9, st1.widget.board i j =
        if i.val = row ∧ j.val = col ∧ isboardchar (s.getD st.pos 0) = true then
          (sudoku_cell_set_val (st.widget.board i j) (boardchar2val (s.getD st.pos 0)) 0).1
        else st.widget.board i j := by
  unfold dialog_set_body
  rw [deref_lt s st.pos h]
  by_cases hb : isboardchar (s.getD st.pos 0) = true
  · simp only [hb, if_true]
    refine ⟨_, rfl, rfl, ?_⟩
    intro i j
    simp only [sudoku_board_set_val, index_natCast row hrow, index_natCast col hcol]
    by_cases hij : i = ⟨row, hrow⟩ ∧ j = ⟨col, hcol⟩
    · obtain ⟨hi, hj⟩ := hij
      subst hi hj
      simp [store_same]
    · rw [store_other _ _ _ _ _ _ hij]
      have hne : ¬ (i.val = row ∧ j.val = col ∧ True) := by
        rintro ⟨h1, h2, _⟩
        exact hij ⟨Fin.ext h1, Fin.ext h2⟩
      simp only [and_true] at hne
      simp only [and_true, if_neg hne]
  · simp only [hb]
    refine ⟨_, rfl, rfl, ?_⟩
    intro i j
    simp

theorem dialog_set_cols_spec (s : List Int) (row : Nat) (hrow : row < 9) (n : Nat)
    (hn : n ≤ 9) (st : SetState) (hlen : st.pos + n ≤ s.length) :
    ∃ st1, (List.range n).foldlM (fun acc col => dialog_set_body s row col acc) st
        = some st1 ∧ st1.pos = st.pos + n ∧
      ∀ i j : Fin 9, st1.widget.board i j =
        if i.val = row ∧ j.val < n ∧ isboardchar (s.getD (st.pos + j.val) 0) = true then
          (sudoku_cell_set_val (st.widget.board i j)
            (boardchar2val (s.getD (st.pos + j.val) 0)) 0).1
        else st.widget.board i j := by
  induction n with
  | zero =>
    refine ⟨st, rfl, rfl, ?_⟩
    intro i j
    simp
  | succ n ih =>
    obtain ⟨st1, h1, hp1, hc1⟩ := ih (by omega) (by omega)
    obtain ⟨st2, h2, hp2, hc2⟩ :=
      dialog_set_body_lt s row n hrow (by omega) st1 (by omega)
    refine ⟨st2, ?_, by omega, ?_⟩
    · rw [List.range_succ, List.foldlM_append, h1]
      simp only [Option.some_bind, Option.bind_eq_bind, List.foldlM_cons, List.foldlM_nil, h2]
      rfl
    · intro i j
      rw [hc2 i j, hc1 i j, hp1]
      by_cases hi : i.val = row
      · by_cases hj : j.val = n
        · have hlt : ¬ j.val < n := by omega
          simp [hi, hj]
        · by_cases hjn : j.val < n
          · have hjs : j.val < n + 1 := by omega
            simp [hi, hj, hjn, hjs]
          · have hjs : ¬ j.val < n + 1 := by omega
            simp [hi, hj, hjn, hjs]
      · simp [hi]

theorem dialog_set_row_spec (s : List Int) (row : Nat) (hrow : row < 9)
    (st : SetState) (hlen : st.pos + 9 ≤ s.length) :
    ∃ st1, dialog_set_row s st row = some st1 ∧ st1.pos = st.pos + 9 ∧
      ∀ i j : Fin 9, st1.widget.board i j =
        if i.val = row ∧ isboardchar (s.getD (st.pos + j.val) 0) = true then
          (sudoku_cell_set_val (st.widget.board i j)
            (boardchar2val (s.getD (st.pos + j.val) 0)) 0).1
        else st.widget.board i j := by
  obtain ⟨st1, h1, hp1, hc1⟩ := dialog_set_cols_spec s row hrow 9 (by omega) st hlen
  refine ⟨st1, ?_, hp1, ?_⟩
  · unfold dialog_set_row
    rw [DIGITS_toNat]
    exact h1
  · intro i j
    rw [hc1 i j]
    have hj : j.val < 9 := j.isLt
    simp [hj]

theorem dialog_set_rows_spec (s : List Int) (m : Nat) (hm : m ≤ 9) (st : SetState)
    (hlen : st.pos + 9 * m ≤ s.length) :
    ∃ st1, (List.range m).foldlM (dialog_set_row s) st = some st1 ∧
      st1.pos = st.pos + 9 * m ∧
      ∀ i j : Fin 9, st1.widget.board i j =
        if i.val < m ∧ isboardchar (s.getD (st.pos + (9 * i.val + j.val)) 0) = true then
          (sudoku_cell_set_val (st.widget.board i j)
            (boardchar2val (s.getD (st.pos + (9 * i.val + j.val)) 0)) 0).1
        else st.widget.board i j := by
  induction m with
  | zero =>
    refine ⟨st, rfl, rfl, ?_⟩
    intro i j
    simp
  | succ m ih =>
    obtain ⟨st1, h1, hp1, hc1⟩ := ih (by omega) (by omega)
    obtain ⟨st2, h2, hp2, hc2⟩ := dialog_set_row_spec s m (by omega) st1 (by omega)
    refine ⟨st2, ?_, by omega, ?_⟩
    · rw [List.range_succ, List.foldlM_append, h1]
      simp only [Option.some_bind, Option.bind_eq_bind, List.foldlM_cons, List.foldlM_nil, h2]
      rfl
    · intro i j
      rw [hc2 i j, hc1 i j, hp1]
      by_cases hi : i.val = m
      · have hlt : ¬ i.val < m := by omega
        have hadd : st.pos + 9 * m + j.val = st.pos + (9 * m + j.val) := by omega
        simp [hi, hadd]
      · by_cases him : i.val < m
        · have his : i.val < m + 1 := by omega
          simp [hi, him, his]
        · have his : ¬ i.val < m + 1 := by omega
          simp [hi, him, his]

/-- With 81 board characters in `s`, `sudoku_dialog_set` reads inside the
string only and leaves in each cell what the byte at its row-major offset
decides. -/
theorem sudoku_dialog_set_spec (w : SudokuBoard) (s : List Int)
    (h : boardlen (some s) = 81) :
    ∃ g eff, sudoku_dialog_set w (some s) = some (g, eff) ∧
      ∀ i j : Fin 9, g.board i j = seeded w s i j := by
  have hlen : 81 ≤ s.length := by
    have h1 := boardlenLoop_le s 0
    have h2 : boardlenLoop s 0 = 81 := h
    omega
  obtain ⟨st1, h1, _, hc1⟩ :=
    dialog_set_rows_spec s 9 (by omega) { widget := w, pos := 0, effects := [] }
      (by simpa using hlen)
  refine ⟨st1.widget, st1.effects, ?_, ?_⟩
  · unfold sudoku_dialog_set
    have hd : (DIGITS * DIGITS).toNat = 81 := rfl
    rw [hd, if_neg (by simpa using h), DIGITS_toNat]
    show Option.map (fun st : SetState => (st.widget, st.effects))
      (List.foldlM (dialog_set_row s) { widget := w, pos := 0, effects := [] }
        (List.range 9)) = _
    rw [h1]
    rfl
  · intro i j
    rw [hc1 i j]
    have hi : i.val < 9 := i.isLt
    simp [seeded, hi]

theorem board_get_val_nat (g : SudokuBoard) (r c : Nat) (hr : r < 9) (hc : c < 9) :
    sudoku_board_get_val g (r : Int) (c : Int) = ((g.board ⟨r, hr⟩ ⟨c, hc⟩).val, []) := by
  unfold sudoku_board_get_val
  rw [index_natCast r hr, index_natCast c hc]
  rfl

theorem apply_cols_chars (g : SudokuBoard) (row n : Nat) (acc : List Int × List Effect) :
    ((List.range n).foldl (fun acc1 col => apply_body g row col acc1) acc).1 =
      acc.1 ++ (List.range n).map
        (fun col : Nat => val2boardchar (sudoku_board_get_val g (row : Int) (col : Int)).1) := by
  induction n with
  | zero => simp
  | succ n ih =>
    rw [List.range_succ n, List.foldl_append, List.map_append, ← List.append_assoc, ← ih]
    rfl

theorem apply_rows_chars (g : SudokuBoard) (m : Nat) (acc : List Int × List Effect) :
    ((List.range m).foldl
      (fun acc0 row =>
        (List.range 9).foldl (fun acc1 col => apply_body g row col acc1) acc0) acc).1 =
      acc.1 ++ (List.range m).flatMap (fun row : Nat => (List.range 9).map
        (fun col : Nat => val2boardchar (sudoku_board_get_val g (row : Int) (col : Int)).1)) := by
  induction m with
  | zero => simp
  | succ m ih =>
    rw [List.range_succ m, List.foldl_append, List.flatMap_append, ← List.append_assoc, ← ih]
    simp only [List.foldl_cons, List.foldl_nil, List.flatMap_cons, List.flatMap_nil,
      List.append_nil]
    rw [apply_cols_chars]

theorem regroup (f : Nat → Nat → Int) :
    (List.range 9).flatMap (fun r => (List.range 9).map (f r)) =
      (List.range 81).map (fun k => f (k / 9) (k % 9)) := by
  rfl

/-- The string the Apply loop writes: position `k` holds the character of
the cell at row `k / 9`, column `k % 9`. -/
theorem apply_loop_chars (g : SudokuBoard) :
    (apply_loop g).1 = (List.range 81).map (fun k : Nat =>
      val2boardchar (sudoku_board_get_val g ((k / 9 : Nat) : Int) ((k % 9 : Nat) : Int)).1) := by
  unfold apply_loop
  rw [DIGITS_toNat, apply_rows_chars, List.nil_append]
  exact regroup (fun r c : Nat => val2boardchar (sudoku_board_get_val g (r : Int) (c : Int)).1)

theorem apply_loop_length (g : SudokuBoard) : (apply_loop g).1.length = 81 := by
  rw [apply_loop_chars]
  simp

theorem apply_loop_getElem (g : SudokuBoard) (k : Nat) (hk : k < 81)
    (hk1 : k < (apply_loop g).1.length) :
    (apply_loop g).1[k] =
      val2boardchar (g.board ⟨k / 9, by omega⟩ ⟨k % 9, by omega⟩).val := by
  have h : (apply_loop g).1[k]? = some
      (val2boardchar (g.board ⟨k / 9, by omega⟩ ⟨k % 9, by omega⟩).val) := by
    rw [apply_loop_chars, List.getElem?_map, List.getElem?_range hk]
    simp only [Option.map_some']
    rw [board_get_val_nat g (k / 9) (k % 9) (by omega) (by omega)]
  rw [List.getElem?_eq_getElem hk1] at h
  exact Option.some.inj h

theorem val2boardchar_boardchar2val (c : Int) (hc : isboardchar c = true) :
    val2boardchar (boardchar2val c) = c := by
  rw [isboardchar_iff] at hc
  rcases hc with rfl | ⟨h1, h2⟩
  · decide
  · interval_cases c <;> decide

theorem land_boardchar2val (c : Int) : Int.land (boardchar2val c) ALL = boardchar2val c := by
  rw [land_ALL]
  by_cases h : 49 ≤ c ∧ c ≤ 57
  · obtain ⟨h1, h2⟩ := h
    interval_cases c <;> decide
  · have hv : boardchar2val c = 511 := by
      unfold boardchar2val
      rw [if_neg (by simpa using h)]
      rfl
    rw [hv]
    decide

theorem seeded_val (w : SudokuBoard) (s : List Int) (r c : Fin 9)
    (hw : (w.board r c).val = ALL) :
    (seeded w s r c).val = boardchar2val (s.getD (9 * r.val + c.val) 0) := by
  unfold seeded
  by_cases hb : isboardchar (s.getD (9 * r.val + c.val) 0) = true
  · rw [if_pos hb, sudoku_cell_set_val_cell, land_boardchar2val]
  · rw [if_neg hb, hw]
    have hn : ¬ (49 ≤ s.getD (9 * r.val + c.val) 0 ∧ s.getD (9 * r.val + c.val) 0 ≤ 57) := by
      intro h
      exact hb ((isboardchar_iff _).2 (Or.inr h))
    unfold boardchar2val
    rw [if_neg (by simpa using hn)]

theorem show_all_chars (g : SudokuBoard) : (apply_loop (show_all g)).1 = (apply_loop g).1 := by
  apply List.ext_getElem
  · rw [apply_loop_length, apply_loop_length]
  · intro k h1 h2
    have hk : k < 81 := by rw [apply_loop_length] at h1; exact h1
    rw [apply_loop_getElem _ k hk h1, apply_loop_getElem _ k hk h2]
    rfl

theorem boardlen_of_board_chars (s : List Int) (hlen : s.length = 81)
    (hs : ∀ c ∈ s, isboardchar c = true) : boardlen (some s) = 81 := by
  have h0 : ∀ c ∈ s, c ≠ 0 := by
    intro c hc h
    have hb := hs c hc
    rw [h] at hb
    exact absurd hb (by decide)
  show boardlenLoop s 0 = 81
  rw [boardlenLoop_eq s h0 0, Nat.zero_add, List.countP_eq_length.2 hs, hlen]

theorem sudoku_board_new_val (editable : Bool) (r c : Fin 9) :
    ((sudoku_board_new editable).board r c).val = ALL ∧
      ((sudoku_board_new editable).board r c).mode = 0 :=
  ⟨rfl, rfl⟩

theorem seed_then_apply (s : List Int) (hlen : s.length = 81)
    (hs : ∀ c ∈ s, isboardchar c = true) (g : SudokuBoard)
    (hg : ∀ i j : Fin 9, g.board i j = seeded (sudoku_board_new true) s i j) :
    (apply_loop g).1 = s := by
  apply List.ext_getElem
  · rw [apply_loop_length, hlen]
  · intro k h1 h2
    have hk : k < 81 := by rw [apply_loop_length] at h1; exact h1
    rw [apply_loop_getElem g k hk h1, hg, seeded_val _ _ _ _ (sudoku_board_new_val true _ _).1]
    have hidx : 9 * (k / 9) + k % 9 = k := Nat.div_add_mod k 9
    simp only [hidx]
    rw [List.getD_eq_getElem _ _ h2]
    exact val2boardchar_boardchar2val _ (hs _ (List.getElem_mem h2))

/-- C1: for a string `s` of exactly 81 characters, each `'.'` or a digit
`'1'` to `'9'`, `sudoku_dialog_set` on a fresh editable grid followed by the
Apply loop of `sudoku_edit_dialog`, with no edit in between, gives `s` back,
also when the grid has been shown in between. -/
theorem load_apply_roundtrip (s : List Int) (hlen : s.length = 81)
    (hs : ∀ c ∈ s, isboardchar c = true) :
    ∃ g eff, sudoku_dialog_set (sudoku_board_new true) (some s) = some (g, eff) ∧
      (apply_loop g).1 = s ∧ (apply_loop (show_all g)).1 = s := by
  obtain ⟨g, eff, h1, h2⟩ :=
    sudoku_dialog_set_spec (sudoku_board_new true) s (boardlen_of_board_chars s hlen hs)
  have h3 := seed_then_apply s hlen hs g h2
  refine ⟨g, eff, h1, h3, ?_⟩
  rw [show_all_chars, h3]

theorem load_apply_roundtrip_witness :
    ((49 :: List.replicate 80 46 : List Int).length = 81 ∧
      ∀ c ∈ (49 :: List.replicate 80 46 : List Int), isboardchar c = true) ∧
    ∃ g eff, sudoku_dialog_set (sudoku_board_new true) (some (49 :: List.replicate 80 46))
        = some (g, eff) ∧ (apply_loop g).1 = 49 :: List.replicate 80 46 ∧
      (apply_loop (show_all g)).1 = 49 :: List.replicate 80 46 :=
  ⟨⟨by decide, by decide⟩,
    load_apply_roundtrip (49 :: List.replicate 80 46) (by decide) (by decide)⟩

/-- C10: for a seed `s` with `boardlen(s) != 81`, the null seed among them,
`sudoku_dialog_set` changes no cell of the board it is given; on a freshly
made grid all 81 cells then hold `ALL` with mode 0, and the Apply loop run at
once, on the grid as it is or shown, gives 81 `'.'` characters. -/
theorem dialog_set_rejects (s : Option (List Int)) (h : boardlen s ≠ 81)
    (editable : Bool) :
    (∀ w : SudokuBoard, sudoku_dialog_set w s = some (w, [])) ∧
    (∃ g, sudoku_dialog_set (sudoku_board_new editable) s = some (g, []) ∧
      (∀ r c : Fin 9, (g.board r c).val = ALL ∧ (g.board r c).mode = 0) ∧
      (apply_loop g).1 = List.replicate 81 46 ∧
      (apply_loop (show_all g)).1 = List.replicate 81 46) := by
  have hw : ∀ w : SudokuBoard, sudoku_dialog_set w s = some (w, []) := by
    intro w
    unfold sudoku_dialog_set
    have hd : (DIGITS * DIGITS).toNat = 81 := rfl
    rw [hd, if_pos h]
  have ha : (apply_loop (sudoku_board_new editable)).1 = List.replicate 81 46 := by
    cases editable <;> decide
  refine ⟨hw, ⟨sudoku_board_new editable, hw _, ?_, ha, ?_⟩⟩
  · intro r c
    exact sudoku_board_new_val editable r c
  · rw [show_all_chars, ha]

set_option maxRecDepth 100000 in
theorem dialog_set_rejects_witness :
    (boardlen none ≠ 81 ∧
      ((∀ w : SudokuBoard, sudoku_dialog_set w none = some (w, [])) ∧
      (∃ g, sudoku_dialog_set (sudoku_board_new true) none = some (g, []) ∧
        (∀ r c : Fin 9, (g.board r c).val = ALL ∧ (g.board r c).mode = 0) ∧
        (apply_loop g).1 = List.replicate 81 46 ∧
        (apply_loop (show_all g)).1 = List.replicate 81 46))) ∧
    (boardlen (some (List.replicate 82 49)) ≠ 81 ∧
      ∃ g, sudoku_dialog_set (sudoku_board_new true) (some (List.replicate 82 49))
          = some (g, []) ∧
        (∀ r c : Fin 9, (g.board r c).val = ALL ∧ (g.board r c).mode = 0) ∧
        (apply_loop g).1 = List.replicate 81 46 ∧
        (apply_loop (show_all g)).1 = List.replicate 81 46) :=
  ⟨⟨by decide, dialog_set_rejects none (by decide) true⟩,
    ⟨by decide, (dialog_set_rejects (some (List.replicate 82 49)) (by decide) true).2⟩⟩

theorem seeded_mode (w : SudokuBoard) (s : List Int) (r c : Fin 9)
    (hw : (w.board r c).mode = 0) : (seeded w s r c).mode = 0 := by
  unfold seeded
  split
  · rw [sudoku_cell_set_val_cell]
  · exact hw

/-- C12: for a seed `s` with `boardlen(s) == 81`, `sudoku_dialog_set` on a
freshly made grid leaves in the cell at row `k / 9`, column `k % 9`, for
every `k` in `0..80`, the value `boardchar2val(s[k])` with mode 0, where
`s[k]` is the `k`-th character of `s` itself, board character or not. -/
theorem seed_positional (s : List Int) (h : boardlen (some s) = 81) (editable : Bool) :
    ∃ g eff, sudoku_dialog_set (sudoku_board_new editable) (some s) = some (g, eff) ∧
      ∀ k : Fin 81, (k : Nat) < s.length ∧
        (g.board ⟨k / 9, by omega⟩ ⟨k % 9, by omega⟩).val
          = boardchar2val (s.getD k 0) ∧
        (g.board ⟨k / 9, by omega⟩ ⟨k % 9, by omega⟩).mode = 0 := by
  obtain ⟨g, eff, h1, h2⟩ := sudoku_dialog_set_spec (sudoku_board_new editable) s h
  have hlen : 81 ≤ s.length := by
    have h3 := boardlenLoop_le s 0
    have h4 : boardlenLoop s 0 = 81 := h
    omega
  refine ⟨g, eff, h1, ?_⟩
  intro k
  have hk : (k : Nat) < 81 := k.isLt
  have hidx : 9 * ((k : Nat) / 9) + (k : Nat) % 9 = k := Nat.div_add_mod k 9
  refine ⟨by omega, ?_, ?_⟩
  · rw [h2, seeded_val _ _ _ _ (sudoku_board_new_val editable _ _).1]
    simp only [hidx]
  · rw [h2]
    exact seeded_mode _ _ _ _ (sudoku_board_new_val editable _ _).2

set_option maxRecDepth 100000 in
theorem seed_positional_witness :
    boardlen (some ([10, 49] ++ List.replicate 80 46)) = 81 ∧
    ∃ g eff, sudoku_dialog_set (sudoku_board_new true)
        (some ([10, 49] ++ List.replicate 80 46)) = some (g, eff) ∧
      ∀ k : Fin 81, (k : Nat) < ([10, 49] ++ List.replicate 80 46 : List Int).length ∧
        (g.board ⟨k / 9, by omega⟩ ⟨k % 9, by omega⟩).val
          = boardchar2val (([10, 49] ++ List.replicate 80 46 : List Int).getD k 0) ∧
        (g.board ⟨k / 9, by omega⟩ ⟨k % 9, by omega⟩).mode = 0 :=
  ⟨by decide, seed_positional ([10, 49] ++ List.replicate 80 46) (by decide) true⟩

/-- When the first 81 characters of `s` are board characters, the `k`-th
board character is the `k`-th character. -/
theorem boardChars_prefix (s : List Int) (hlen : 81 ≤ s.length)
    (hpre : ∀ k : Nat, k < 81 → isboardchar (s.getD k 0) = true) (k : Nat) (hk : k < 81) :
    (boardChars s).getD k 0 = s.getD k 0 := by
  have hmem : ∀ a ∈ s.take 81, isboardchar a = true := by
    intro a ha
    obtain ⟨i, hi, rfl⟩ := List.getElem_of_mem ha
    have hi81 : i < 81 := by
      rw [List.length_take] at hi
      omega
    have h := hpre i hi81
    rw [List.getD_eq_getElem _ _ (by omega)] at h
    rw [List.getElem_take]
    exact h
  have hnz : ∀ a ∈ s.take 81, ((fun c : Int => c != 0) a) = true := by
    intro a ha
    have hb := hmem a ha
    by_contra hz
    have ha0 : a = 0 := by simpa using hz
    rw [ha0] at hb
    exact absurd hb (by decide)
  have hsplit : boardChars s =
      s.take 81 ++ ((s.drop 81).takeWhile (fun c => c != 0)).filter isboardchar := by
    unfold boardChars
    conv_lhs => rw [← List.take_append_drop 81 s]
    rw [List.takeWhile_append_of_pos hnz, List.filter_append, List.filter_eq_self.2 hmem]
  have hlt : k < (s.take 81).length := by
    rw [List.length_take]
    omega
  rw [hsplit, List.getD_append _ _ _ _ hlt, List.getD_eq_getElem _ _ hlt,
    List.getD_eq_getElem _ _ (by omega), List.getElem_take]

set_option maxRecDepth 100000 in
/-- C11 fails on an interleaved seed: for the newline, `'1'` and eighty
`'.'`, `boardlen` is 81 and the first board character is `'1'`, yet the cell
at row 0, column 0 keeps `ALL` (511) and not `boardchar2val('1')` (1), while
the cell at row 0, column 1 takes the `'1'`. -/
theorem seed_interleaved_counterexample :
    boardlen (some ([10, 49] ++ List.replicate 80 46)) = 81 ∧
    boardchar2val ((boardChars ([10, 49] ++ List.replicate 80 46)).getD 0 0) = 1 ∧
    (sudoku_dialog_set (sudoku_board_new true)
        (some ([10, 49] ++ List.replicate 80 46))).map (fun r => (r.1.board 0 0).val)
      = some 511 ∧
    (sudoku_dialog_set (sudoku_board_new true)
        (some ([10, 49] ++ List.replicate 80 46))).map (fun r => (r.1.board 0 1).val)
      = some 1 := by
  decide

/-- C11, amended: for a seed `s` with `boardlen(s) == 81` whose first 81
characters are all board characters (other characters may follow them),
`sudoku_dialog_set` on a freshly made grid leaves in the cell at row
`k / 9`, column `k % 9`, for every `k` in `0..80`, `boardchar2val` of the
`k`-th board character of `s`. -/
theorem seed_clean_prefix (s : List Int) (h : boardlen (some s) = 81)
    (hpre : ∀ k : Nat, k < 81 → isboardchar (s.getD k 0) = true) :
    ∃ g eff, sudoku_dialog_set (sudoku_board_new true) (some s) = some (g, eff) ∧
      ∀ k : Fin 81,
        (g.board ⟨k / 9, by omega⟩ ⟨k % 9, by omega⟩).val
          = boardchar2val ((boardChars s).getD k 0) := by
  obtain ⟨g, eff, h1, h2⟩ := sudoku_dialog_set_spec (sudoku_board_new true) s h
  have hlen : 81 ≤ s.length := by
    have h3 := boardlenLoop_le s 0
    have h4 : boardlenLoop s 0 = 81 := h
    omega
  refine ⟨g, eff, h1, ?_⟩
  intro k
  have hk : (k : Nat) < 81 := k.isLt
  have hidx : 9 * ((k : Nat) / 9) + (k : Nat) % 9 = k := Nat.div_add_mod k 9
  rw [h2, seeded_val _ _ _ _ (sudoku_board_new_val true _ _).1,
    boardChars_prefix s hlen hpre k hk]
  simp only [hidx]

set_option maxRecDepth 100000 in
theorem seed_clean_prefix_witness :
    (boardlen (some ([49, 50] ++ List.replicate 79 46 ++ [10, 32])) = 81 ∧
      ∀ k : Nat, k < 81 →
        isboardchar (([49, 50] ++ List.replicate 79 46 ++ [10, 32] : List Int).getD k 0)
          = true) ∧
    ∃ g eff, sudoku_dialog_set (sudoku_board_new true)
        (some ([49, 50] ++ List.replicate 79 46 ++ [10, 32])) = some (g, eff) ∧
      ∀ k : Fin 81,
        (g.board ⟨k / 9, by omega⟩ ⟨k % 9, by omega⟩).val
          = boardchar2val
              ((boardChars ([49, 50] ++ List.replicate 79 46 ++ [10, 32])).getD k 0) :=
  ⟨⟨by decide, by decide⟩,
    seed_clean_prefix ([49, 50] ++ List.replicate 79 46 ++ [10, 32]) (by decide)
      (by decide)⟩

/-! ## What the Apply loop returns -/

theorem val2boardchar_isboardchar (v : Int) : isboardchar (val2boardchar v) = true := by
  unfold val2boardchar
  rw [DIGITS_toNat]
  split
  · next d h =>
    have hd := List.mem_of_find?_eq_some h
    simp only [List.bind_eq_flatMap, List.pure_def, List.mem_flatMap, List.mem_range,
      List.mem_singleton] at hd
    obtain ⟨a, ha, rfl⟩ := hd
    rw [isboardchar_iff]
    omega
  · decide

theorem sudoku_dialog_set_total (w : SudokuBoard) (s : Option (List Int)) :
    ∃ g eff, sudoku_dialog_set w s = some (g, eff) ∧
      ∀ i j : Fin 9, g.board i j = w.board i j ∨
        ∃ v : Int, g.board i j = (sudoku_cell_set_val (w.board i j) v 0).1 := by
  by_cases h : boardlen s = 81
  · cases s with
    | none => exact absurd h (by decide)
    | some str =>
      obtain ⟨g, eff, h1, h2⟩ := sudoku_dialog_set_spec w str h
      refine ⟨g, eff, h1, ?_⟩
      intro i j
      rw [h2]
      unfold seeded
      split
      · exact Or.inr ⟨_, rfl⟩
      · exact Or.inl rfl
  · refine ⟨w, [], ?_, fun i j => Or.inl rfl⟩
    unfold sudoku_dialog_set
    have hd : (DIGITS * DIGITS).toNat = 81 := rfl
    rw [hd, if_pos h]

/-- The whole of `sudoku_edit_dialog` on the null seed: the end of the
function run on the fresh grid after it is shown and has taken the key
presses. -/
theorem sudoku_edit_dialog_null (keys : List KeyEvent) (response : Int) (mallocOk : Bool) :
    sudoku_edit_dialog none keys response mallocOk =
      dialog_result
        (keys.foldl (fun g e => (board_key_press g e).1) (show_all (sudoku_board_new true)))
        response mallocOk := by
  rfl

/-- The whole of `sudoku_edit_dialog` on a seed that is a string: the seed is
handed to `GTK_WIDGET`. -/
theorem sudoku_edit_dialog_seeded (s : List Int) (keys : List KeyEvent) (response : Int)
    (mallocOk : Bool) :
    sudoku_edit_dialog (some s) keys response mallocOk = DialogResult.undefined := by
  obtain ⟨g0, eff, h0, _⟩ := sudoku_dialog_set_total (sudoku_board_new true) (some s)
  unfold sudoku_edit_dialog
  rw [h0]
  rfl

/-- C13: whatever the grid holds when the dialog ends, on Apply the returned
string is the one the Apply loop writes: exactly 81 characters, the one at
index `9 * row + col` being `val2boardchar` of `get_val(row, col)`, every one
a board character, so `boardlen` of the result is 81; on any other response
the result is the null pointer.  `sudoku_edit_dialog` returns just that for
the grid its key presses leave, wherever its run is defined. -/
theorem apply_result (grid : SudokuBoard) :
    (apply_loop grid).1.length = 81 ∧
    (∀ row col : Fin 9, (apply_loop grid).1.getD (9 * row.val + col.val) 0
      = val2boardchar (sudoku_board_get_val grid (row.val : Int) (col.val : Int)).1) ∧
    (∀ c ∈ (apply_loop grid).1, isboardchar c = true) ∧
    boardlen (some (apply_loop grid).1) = 81 ∧
    dialog_result grid GTK_RESPONSE_APPLY true = DialogResult.text (apply_loop grid).1 ∧
    (∀ (response : Int) (mallocOk : Bool), response ≠ GTK_RESPONSE_APPLY →
      dialog_result grid response mallocOk = DialogResult.null) ∧
    (∀ (seed : Option (List Int)) (keys : List KeyEvent) (response : Int) (mallocOk : Bool),
      sudoku_edit_dialog seed keys response mallocOk = DialogResult.undefined ∨
      ∃ g0 eff, sudoku_dialog_set (sudoku_board_new true) seed = some (g0, eff) ∧
        sudoku_edit_dialog seed keys response mallocOk =
          dialog_result (keys.foldl (fun g e => (board_key_press g e).1) (show_all g0))
            response mallocOk) ∧
    (∀ (keys : List KeyEvent) (response : Int) (mallocOk : Bool),
      sudoku_edit_dialog none keys response mallocOk =
        dialog_result
          (keys.foldl (fun g e => (board_key_press g e).1) (show_all (sudoku_board_new true)))
          response mallocOk) ∧
    sudoku_edit_dialog none
        [{ row := 0, col := 0, keyval := GDK_KEY_1 + 4, bindings := false }]
        GTK_RESPONSE_APPLY true
      = DialogResult.text (53 :: List.replicate 80 46) ∧
    sudoku_edit_dialog none
        [{ row := 0, col := 0, keyval := GDK_KEY_1 + 4, bindings := false }]
        (-6) true
      = DialogResult.null := by
  have hlen := apply_loop_length grid
  have hget : ∀ row col : Fin 9, (apply_loop grid).1.getD (9 * row.val + col.val) 0
      = val2boardchar (sudoku_board_get_val grid (row.val : Int) (col.val : Int)).1 := by
    intro row col
    have hr := row.isLt
    have hc := col.isLt
    have hk : 9 * row.val + col.val < 81 := by omega
    have hk1 : 9 * row.val + col.val < (apply_loop grid).1.length := by omega
    rw [List.getD_eq_getElem _ _ hk1, apply_loop_getElem grid _ hk hk1,
      board_get_val_nat grid row.val col.val hr hc]
    have h1 : (9 * row.val + col.val) / 9 = row.val := by omega
    have h2 : (9 * row.val + col.val) % 9 = col.val := by omega
    simp only [h1, h2]
  have hall : ∀ c ∈ (apply_loop grid).1, isboardchar c = true := by
    intro c hc
    obtain ⟨k, hk1, rfl⟩ := List.getElem_of_mem hc
    have hk : k < 81 := by omega
    rw [apply_loop_getElem grid k hk hk1]
    exact val2boardchar_isboardchar _
  refine ⟨hlen, hget, hall, boardlen_of_board_chars _ hlen hall, rfl, ?_, ?_,
    sudoku_edit_dialog_null, by decide, by decide⟩
  · intro response mallocOk hne
    unfold dialog_result
    rw [if_neg hne]
  · intro seed keys response mallocOk
    cases seed with
    | none =>
      exact Or.inr ⟨sudoku_board_new true, [], rfl, sudoku_edit_dialog_null keys response mallocOk⟩
    | some s => exact Or.inl (sudoku_edit_dialog_seeded s keys response mallocOk)

/-! ## Frame and range of `set_val` -/

theorem index_none_of_out (i : Int) (h : ¬ (0 ≤ i ∧ i < 9)) : index i = none := by
  unfold index
  rw [dif_neg (by rw [DIGITS_eq]; exact h)]

theorem board_set_val_out (b : SudokuBoard) (row col val mode : Int)
    (h : ¬ (0 ≤ row ∧ row < 9 ∧ 0 ≤ col ∧ col < 9)) :
    sudoku_board_set_val b row col val mode = (b, [Effect.critical]) := by
  unfold sudoku_board_set_val
  by_cases hr : 0 ≤ row ∧ row < 9
  · have hc : ¬ (0 ≤ col ∧ col < 9) := fun hc => h ⟨hr.1, hr.2, hc.1, hc.2⟩
    rw [index_of_range row hr.1 hr.2, index_none_of_out col hc]
  · rw [index_none_of_out row hr]

theorem board_get_val_out (b : SudokuBoard) (row col : Int)
    (h : ¬ (0 ≤ row ∧ row < 9 ∧ 0 ≤ col ∧ col < 9)) :
    sudoku_board_get_val b row col = (-1, [Effect.critical]) := by
  unfold sudoku_board_get_val
  by_cases hr : 0 ≤ row ∧ row < 9
  · have hc : ¬ (0 ≤ col ∧ col < 9) := fun hc => h ⟨hr.1, hr.2, hc.1, hc.2⟩
    rw [index_of_range row hr.1 hr.2, index_none_of_out col hc]
  · rw [index_none_of_out row hr]

/-- The cells of a board after `sudoku_board_set_val`. -/
theorem board_set_val_cell (b : SudokuBoard) (row col val mode : Int) (i j : Fin 9) :
    (sudoku_board_set_val b row col val mode).1.board i j =
      if (i.val : Int) = row ∧ (j.val : Int) = col then
        (sudoku_cell_set_val (b.board i j) val mode).1
      else b.board i j := by
  have hi := i.isLt
  have hj := j.isLt
  by_cases hij : (i.val : Int) = row ∧ (j.val : Int) = col
  · obtain ⟨h1, h2⟩ := hij
    subst h1 h2
    simp only [and_self, if_true]
    unfold sudoku_board_set_val
    rw [index_natCast i.val hi, index_natCast j.val hj]
    exact store_same _ _ _ _
  · rw [if_neg hij]
    by_cases h : 0 ≤ row ∧ row < 9 ∧ 0 ≤ col ∧ col < 9
    · obtain ⟨hr0, hr, hc0, hc⟩ := h
      rw [board_set_val_in_range b row col val mode hr0 hr hc0 hc, store_other]
      rintro ⟨h1, h2⟩
      apply hij
      subst h1 h2
      simp only
      omega
    · rw [board_set_val_out b row col val mode h]

/-- C15: `set_val(row, col, v, mode)` on a board leaves the value and mode
of every cell at other coordinates as they were; when `row` or `col` lies
outside `[0, 9)` the board is returned as it was and the only toolkit call
is the diagnostic, so nothing is repainted. -/
theorem board_set_val_frame (b : SudokuBoard) (row col v mode : Int) :
    (∀ i j : Fin 9, ¬ ((i.val : Int) = row ∧ (j.val : Int) = col) →
      (sudoku_board_set_val b row col v mode).1.board i j = b.board i j) ∧
    (¬ (0 ≤ row ∧ row < 9 ∧ 0 ≤ col ∧ col < 9) →
      (∀ i j : Fin 9, (sudoku_board_set_val b row col v mode).1.board i j = b.board i j) ∧
      (sudoku_board_set_val b row col v mode).2 = [Effect.critical] ∧
      ∀ e ∈ (sudoku_board_set_val b row col v mode).2, ∀ r c : Int,
        e ≠ Effect.invalidate r c) := by
  refine ⟨?_, ?_⟩
  · intro i j hij
    rw [board_set_val_cell, if_neg hij]
  · intro h
    rw [board_set_val_out b row col v mode h]
    refine ⟨fun i j => rfl, rfl, ?_⟩
    intro e he r c
    rw [List.mem_singleton] at he
    rw [he]
    exact fun hc => Effect.noConfusion hc

theorem board_set_val_frame_witness :
    ((∀ i j : Fin 9, ¬ ((i.val : Int) = -1 ∧ (j.val : Int) = 4) →
      (sudoku_board_set_val (sudoku_board_new true) (-1) 4 7 1).1.board i j
        = (sudoku_board_new true).board i j) ∧
    (¬ (0 ≤ (-1 : Int) ∧ (-1 : Int) < 9 ∧ 0 ≤ (4 : Int) ∧ (4 : Int) < 9) →
      (∀ i j : Fin 9, (sudoku_board_set_val (sudoku_board_new true) (-1) 4 7 1).1.board i j
        = (sudoku_board_new true).board i j) ∧
      (sudoku_board_set_val (sudoku_board_new true) (-1) 4 7 1).2 = [Effect.critical] ∧
      ∀ e ∈ (sudoku_board_set_val (sudoku_board_new true) (-1) 4 7 1).2, ∀ r c : Int,
        e ≠ Effect.invalidate r c)) ∧
    ((sudoku_board_set_val (sudoku_board_new true) 2 9 7 1).2 = [Effect.critical] ∧
      ((sudoku_board_set_val (sudoku_board_new true) 2 3 7 1).1.board 2 3).val = 7 ∧
      ((sudoku_board_set_val (sudoku_board_new true) 2 3 7 1).1.board 3 2).val = 511) :=
  ⟨board_set_val_frame (sudoku_board_new true) (-1) 4 7 1, by decide⟩

theorem set_val_effects_redraws (cell : SudokuCell) (v mode : Int) :
    (sudoku_cell_set_val cell v mode).2 =
      (sudoku_cell_set_val_redraws cell v mode).flatMap sudoku_cell_redraw_canvas := by
  unfold sudoku_cell_set_val sudoku_cell_set_val_redraws
  by_cases h : cell.val ≠ Int.land v ALL ∨ cell.mode ≠ mode
  · simp only [if_pos h, List.flatMap_cons, List.flatMap_nil, List.append_nil]
  · simp only [if_neg h, List.flatMap_nil]

theorem set_val_unchanged (cell : SudokuCell) (v mode : Int)
    (h : ¬ (Int.land v ALL ≠ cell.val ∨ mode ≠ cell.mode)) :
    sudoku_cell_set_val cell v mode = (cell, []) := by
  have h1 : ¬ (cell.val ≠ Int.land v ALL ∨ cell.mode ≠ mode) := by
    rintro (h2 | h2)
    · exact h (Or.inl (Ne.symm h2))
    · exact h (Or.inr (Ne.symm h2))
  simp only [sudoku_cell_set_val, if_neg h1]

/-- C16: the cell's `set_val(v, mode)` calls `sudoku_cell_redraw_canvas`
exactly once, on the updated cell, when `v & 0x1FF` differs from the stored
value or `mode` from the stored mode (on a cell with a window that is exactly
one invalidation of the window); otherwise it makes no call and leaves the
state as it was.  A second `set_val(v, mode)` right after the first gives the
same state and asks for no repaint. -/
theorem cell_set_val_repaint (cell : SudokuCell) (v mode : Int) :
    (sudoku_cell_set_val_redraws cell v mode).length =
      (if Int.land v 0x1FF ≠ cell.val ∨ mode ≠ cell.mode then 1 else 0) ∧
    (sudoku_cell_set_val cell v mode).2 =
      (if Int.land v 0x1FF ≠ cell.val ∨ mode ≠ cell.mode then
        sudoku_cell_redraw_canvas { cell with val := Int.land v 0x1FF, mode := mode }
      else []) ∧
    (sudoku_cell_set_val { cell with window := true } v mode).2 =
      (if Int.land v 0x1FF ≠ cell.val ∨ mode ≠ cell.mode then
        [Effect.invalidate cell.row cell.col]
      else []) ∧
    (sudoku_cell_set_val cell v mode).1 =
      (if Int.land v 0x1FF ≠ cell.val ∨ mode ≠ cell.mode then
        { cell with val := Int.land v 0x1FF, mode := mode }
      else cell) ∧
    sudoku_cell_set_val (sudoku_cell_set_val cell v mode).1 v mode =
      ((sudoku_cell_set_val cell v mode).1, []) ∧
    sudoku_cell_set_val_redraws (sudoku_cell_set_val cell v mode).1 v mode = [] := by
  have hA : (0x1FF : Int) = ALL := rfl
  rw [hA]
  have hstate := sudoku_cell_set_val_cell cell v mode
  have hsecond : ¬ (Int.land v ALL ≠ (sudoku_cell_set_val cell v mode).1.val ∨
      mode ≠ (sudoku_cell_set_val cell v mode).1.mode) := by
    rw [hstate]
    simp
  by_cases h : Int.land v ALL ≠ cell.val ∨ mode ≠ cell.mode
  · have h1 : cell.val ≠ Int.land v ALL ∨ cell.mode ≠ mode := by
      rcases h with h2 | h2
      · exact Or.inl (Ne.symm h2)
      · exact Or.inr (Ne.symm h2)
    have h3 : ({ cell with window := true } : SudokuCell).val ≠ Int.land v ALL ∨
        ({ cell with window := true } : SudokuCell).mode ≠ mode := h1
    refine ⟨?_, ?_, ?_, ?_, set_val_unchanged _ v mode hsecond, ?_⟩
    · simp only [sudoku_cell_set_val_redraws, if_pos h1, if_pos h, List.length_singleton]
    · simp only [sudoku_cell_set_val, if_pos h1, if_pos h]
    · simp only [sudoku_cell_set_val, if_pos h3, if_pos h]
      rfl
    · rw [hstate, if_pos h]
    · have h4 : ¬ ((sudoku_cell_set_val cell v mode).1.val ≠ Int.land v ALL ∨
          (sudoku_cell_set_val cell v mode).1.mode ≠ mode) := by
        rw [hstate]
        simp
      simp only [sudoku_cell_set_val_redraws, if_neg h4]
  · have h1 : ¬ (cell.val ≠ Int.land v ALL ∨ cell.mode ≠ mode) := by
      rintro (h2 | h2)
      · exact h (Or.inl (Ne.symm h2))
      · exact h (Or.inr (Ne.symm h2))
    have h3 : ¬ (({ cell with window := true } : SudokuCell).val ≠ Int.land v ALL ∨
        ({ cell with window := true } : SudokuCell).mode ≠ mode) := h1
    refine ⟨?_, ?_, ?_, ?_, set_val_unchanged _ v mode hsecond, ?_⟩
    · simp only [sudoku_cell_set_val_redraws, if_neg h1, if_neg h, List.length_nil]
    · simp only [sudoku_cell_set_val, if_neg h1, if_neg h]
    · simp only [sudoku_cell_set_val, if_neg h3, if_neg h]
    · simp only [sudoku_cell_set_val, if_neg h1, if_neg h]
    · have h4 : ¬ ((sudoku_cell_set_val cell v mode).1.val ≠ Int.land v ALL ∨
          (sudoku_cell_set_val cell v mode).1.mode ≠ mode) := by
        rw [hstate]
        simp
      simp only [sudoku_cell_set_val_redraws, if_neg h4]

/-! ## The nine-bit invariant -/

theorem land_ALL_range (v : Int) : 0 ≤ Int.land v ALL ∧ Int.land v ALL ≤ 511 := by
  rw [land_ALL]
  have h1 := Int.emod_nonneg v (by norm_num : (512 : Int) ≠ 0)
  have h2 := Int.emod_lt_of_pos v (by norm_num : (0 : Int) < 512)
  omega

theorem cell_set_val_range (cell : SudokuCell) (v mode : Int) :
    0 ≤ (sudoku_cell_set_val cell v mode).1.val ∧
      (sudoku_cell_set_val cell v mode).1.val ≤ 511 := by
  rw [sudoku_cell_set_val_cell]
  exact land_ALL_range v

theorem key_press_not_editable (cell : SudokuCell) (he : cell.editable = false)
    (keyval : Int) (bnd : Bool) :
    sudoku_cell_key_press cell keyval bnd =
      { cell := cell, effects := [Effect.bindings keyval], ret := bnd } := by
  simp [sudoku_cell_key_press, he]

theorem cell_key_press_range (cell : SudokuCell) (keyval : Int) (bnd : Bool)
    (h : 0 ≤ cell.val ∧ cell.val ≤ 511) :
    0 ≤ (sudoku_cell_key_press cell keyval bnd).cell.val ∧
      (sudoku_cell_key_press cell keyval bnd).cell.val ≤ 511 := by
  cases he : cell.editable with
  | false =>
    rw [key_press_not_editable cell he]
    exact h
  | true =>
    cases hk : isHandledKey keyval with
    | false =>
      rw [key_press_unhandled cell keyval hk]
      exact h
    | true =>
      obtain ⟨d, _, _, hd, _, _⟩ := key_press_handled cell he keyval hk bnd
      rw [hd, pressed_key_cell]
      show 0 ≤ keyDigit d ∧ keyDigit d ≤ 511
      rw [← land_keyDigit]
      exact land_ALL_range _

/-- Every cell of a reachable board stores a value between 0 and 511. -/
theorem reachable_range (b : SudokuBoard) (h : Reachable b) :
    ∀ i j : Fin 9, 0 ≤ (b.board i j).val ∧ (b.board i j).val ≤ 511 := by
  induction h with
  | new editable =>
    intro i j
    rw [(sudoku_board_new_val editable i j).1]
    decide
  | shown b _ ih =>
    intro i j
    exact ih i j
  | windows b f _ ih =>
    intro i j
    exact ih i j
  | set_val b row col val mode _ ih =>
    intro i j
    rw [board_set_val_cell]
    split
    · exact cell_set_val_range _ _ _
    · exact ih i j
  | key_press b e _ ih =>
    intro i j
    show 0 ≤ ((b.store e.row e.col
        (sudoku_cell_key_press (b.board e.row e.col) e.keyval e.bindings).cell).board i j).val ∧
      ((b.store e.row e.col
        (sudoku_cell_key_press (b.board e.row e.col) e.keyval e.bindings).cell).board i j).val
        ≤ 511
    by_cases hij : i = e.row ∧ j = e.col
    · obtain ⟨h1, h2⟩ := hij
      subst h1 h2
      rw [store_same]
      exact cell_key_press_range _ _ _ (ih _ _)
    · rw [store_other _ _ _ _ _ _ hij]
      exact ih i j
  | dialog_set b s g eff _ hs ih =>
    intro i j
    obtain ⟨g1, eff1, h1, h2⟩ := sudoku_dialog_set_total b s
    rw [hs] at h1
    have hg : g = g1 := by
      have h3 := Option.some.inj h1
      exact congrArg Prod.fst h3
    subst hg
    rcases h2 i j with h3 | ⟨v, h3⟩
    · rw [h3]
      exact ih i j
    · rw [h3]
      exact cell_set_val_range _ _ _

/-- C20: in every state reachable from a freshly made board by `set_val`
calls with any integers for row, column, value and mode, by key presses and
by `sudoku_dialog_set` with any string, each of the 81 cells stores a value
`v` with `0 ≤ v ≤ 511`. -/
theorem reachable_nine_bits (b : SudokuBoard) (h : Reachable b) :
    ∀ i j : Fin 9, 0 ≤ (b.board i j).val ∧ (b.board i j).val ≤ 511 ∧
      Int.land (b.board i j).val ALL = (b.board i j).val := by
  intro i j
  have hr := reachable_range b h i j
  refine ⟨hr.1, hr.2, ?_⟩
  rw [land_ALL]
  exact Int.emod_eq_of_lt hr.1 (by omega)

/-- The grid `sudoku_edit_dialog` works on is reachable at every point of
the dialog: seeded, shown, and after each key press. -/
theorem dialog_grid_reachable (seed : Option (List Int)) (g0 : SudokuBoard)
    (eff : List Effect) (h : sudoku_dialog_set (sudoku_board_new true) seed = some (g0, eff))
    (keys : List KeyEvent) :
    Reachable (keys.foldl (fun g e => (board_key_press g e).1) (show_all g0)) := by
  have h0 : Reachable (show_all g0) :=
    Reachable.shown _ (Reachable.dialog_set _ seed g0 eff (Reachable.new true) h)
  have hfold : ∀ (ks : List KeyEvent) (b : SudokuBoard), Reachable b →
      Reachable (ks.foldl (fun g e => (board_key_press g e).1) b) := by
    intro ks
    induction ks with
    | nil => exact fun b hb => hb
    | cons e rest ih => exact fun b hb => ih _ (Reachable.key_press b e hb)
  exact hfold keys _ h0

theorem reachable_nine_bits_witness :
    Reachable
      (sudoku_board_set_val
        (board_key_press (show_all (sudoku_board_new true))
          { row := 0, col := 8, keyval := GDK_KEY_1 + 8, bindings := false }).1
        4 4 (-1000) (-3)).1 ∧
    ∀ i j : Fin 9,
      0 ≤ ((sudoku_board_set_val
        (board_key_press (show_all (sudoku_board_new true))
          { row := 0, col := 8, keyval := GDK_KEY_1 + 8, bindings := false }).1
        4 4 (-1000) (-3)).1.board i j).val ∧
      ((sudoku_board_set_val
        (board_key_press (show_all (sudoku_board_new true))
          { row := 0, col := 8, keyval := GDK_KEY_1 + 8, bindings := false }).1
        4 4 (-1000) (-3)).1.board i j).val ≤ 511 ∧
      Int.land ((sudoku_board_set_val
        (board_key_press (show_all (sudoku_board_new true))
          { row := 0, col := 8, keyval := GDK_KEY_1 + 8, bindings := false }).1
        4 4 (-1000) (-3)).1.board i j).val ALL =
      ((sudoku_board_set_val
        (board_key_press (show_all (sudoku_board_new true))
          { row := 0, col := 8, keyval := GDK_KEY_1 + 8, bindings := false }).1
        4 4 (-1000) (-3)).1.board i j).val :=
  ⟨Reachable.set_val _ 4 4 (-1000) (-3)
      (Reachable.key_press _ _ (Reachable.shown _ (Reachable.new true))),
    reachable_nine_bits _
      (Reachable.set_val _ 4 4 (-1000) (-3)
        (Reachable.key_press _ _ (Reachable.shown _ (Reachable.new true))))⟩

/-- C14: for `row` or `col` outside `[0, 9)`, negative values included,
`get_val` returns -1 whatever the board holds, with the diagnostic as its
only effect; on a reachable board an in-range `get_val` returns a value in
`0..511`, so -1 is none of them and differs from the contradiction value 0. -/
theorem board_get_val_sentinel (b : SudokuBoard) (row col : Int) :
    (¬ (0 ≤ row ∧ row < 9 ∧ 0 ≤ col ∧ col < 9) →
      ∀ b1 : SudokuBoard, sudoku_board_get_val b1 row col = (-1, [Effect.critical])) ∧
    (Reachable b → 0 ≤ row ∧ row < 9 ∧ 0 ≤ col ∧ col < 9 →
      0 ≤ (sudoku_board_get_val b row col).1 ∧ (sudoku_board_get_val b row col).1 ≤ 511 ∧
      (sudoku_board_get_val b row col).1 ≠ -1 ∧
      (sudoku_board_get_val b row col).2 = []) := by
  refine ⟨fun h b1 => board_get_val_out b1 row col h, ?_⟩
  rintro hb ⟨hr0, hr, hc0, hc⟩
  rw [board_get_val_in_range b row col hr0 hr hc0 hc]
  have h := reachable_range b hb ⟨row.toNat, by omega⟩ ⟨col.toNat, by omega⟩
  refine ⟨h.1, h.2, ?_, rfl⟩
  show (b.board ⟨row.toNat, by omega⟩ ⟨col.toNat, by omega⟩).val ≠ -1
  omega

theorem board_get_val_sentinel_witness :
    (sudoku_board_get_val (show_all (sudoku_board_new false)) 9 0 = (-1, [Effect.critical]) ∧
      sudoku_board_get_val (show_all (sudoku_board_new false)) 0 (-1)
        = (-1, [Effect.critical])) ∧
    (0 ≤ (sudoku_board_get_val
        (sudoku_board_set_val (show_all (sudoku_board_new false)) 8 0 512 0).1 8 0).1 ∧
      (sudoku_board_get_val
        (sudoku_board_set_val (show_all (sudoku_board_new false)) 8 0 512 0).1 8 0).1 ≤ 511 ∧
      (sudoku_board_get_val
        (sudoku_board_set_val (show_all (sudoku_board_new false)) 8 0 512 0).1 8 0).1 ≠ -1 ∧
      (sudoku_board_get_val
        (sudoku_board_set_val (show_all (sudoku_board_new false)) 8 0 512 0).1 8 0).2 = []) :=
  ⟨⟨(board_get_val_sentinel (sudoku_board_new false) 9 0).1 (by decide) _,
      (board_get_val_sentinel (sudoku_board_new false) 0 (-1)).1 (by decide) _⟩,
    (board_get_val_sentinel
        (sudoku_board_set_val (show_all (sudoku_board_new false)) 8 0 512 0).1 8 0).2
      (Reachable.set_val _ 8 0 512 0 (Reachable.shown _ (Reachable.new false))) (by decide)⟩

/-! ## The glyph -/

theorem texts_append (a b : List Cairo) : texts (a ++ b) = texts a ++ texts b := by
  simp [texts, List.filterMap_append]

theorem dots_append (a b : List Cairo) : dots (a ++ b) = dots a ++ dots b := by
  simp [dots, List.filterMap_append]

theorem draw_rows_texts (row : Int) (w h lw y : ℚ) :
    texts (draw_rows row w h lw y).1 = [] ∧ dots (draw_rows row w h lw y).1 = [] := by
  unfold draw_rows
  split_ifs <;> exact ⟨rfl, rfl⟩

theorem draw_cols_texts (col : Int) (w h lw x : ℚ) :
    texts (draw_cols col w h lw x).1 = [] ∧ dots (draw_cols col w h lw x).1 = [] := by
  unfold draw_cols
  split_ifs <;> exact ⟨rfl, rfl⟩

theorem draw_square_texts (priv : SudokuCell) (w h lw : ℚ) :
    texts (draw_square priv w h lw) = [] ∧ dots (draw_square priv w h lw) = [] := by
  unfold draw_square
  simp only
  split_ifs <;> exact ⟨rfl, rfl⟩

/-- The strings and discs `draw` puts on the cell are those of its glyph
part. -/
theorem draw_texts_dots (priv : SudokuCell) (w h lw : ℚ) :
    texts (draw priv w h lw) = texts (draw_glyph priv w h) ∧
      dots (draw priv w h lw) = dots (draw_glyph priv w h) := by
  unfold draw
  simp only [texts_append, dots_append, (draw_rows_texts _ _ _ _ _).1,
    (draw_rows_texts _ _ _ _ _).2, (draw_cols_texts _ _ _ _ _).1,
    (draw_cols_texts _ _ _ _ _).2, (draw_square_texts _ _ _ _).1,
    (draw_square_texts _ _ _ _).2, List.nil_append]
  exact ⟨rfl, rfl⟩

theorem shl_one (e : Nat) : (1 : Int) <<< (e : Int) = 2 ^ e := by
  rw [Int.shiftLeft_eq_mul_pow]
  simp

theorem find_numeral (d : Nat) (hd : d ≤ 8) :
    (List.range 9).find? (fun e : Nat => ((2 : Int) ^ d) == 1 <<< (e : Int)) = some d := by
  interval_cases d <;> decide

theorem find_numeral_none (v : Int) (hv : ∀ d : Nat, d ≤ 8 → v ≠ 2 ^ d) :
    (List.range 9).find? (fun e : Nat => v == 1 <<< (e : Int)) = none := by
  rw [List.find?_eq_none]
  intro e he
  rw [List.mem_range] at he
  rw [shl_one]
  simpa using hv e (by omega)

theorem dotPos_cast (d : Nat) :
    ((((Int.tmod (d : Int) SIDES - 1 : Int) : ℚ)), (((Int.tdiv (d : Int) SIDES - 1 : Int) : ℚ)))
      = dotPos d := by
  have h3 : SIDES = ((3 : Nat) : Int) := rfl
  unfold dotPos
  rw [h3, Int.tmod_eq_emod (Int.natCast_nonneg d) (Int.natCast_nonneg 3),
    Int.tdiv_eq_ediv (Int.natCast_nonneg d) (Int.natCast_nonneg 3)]
  push_cast
  rfl

theorem dots_loop (v : Int) (l : List Nat) :
    dots (l.flatMap (fun d : Nat =>
      if Int.land v (1 <<< (d : Int)) ≠ 0 then
        [Cairo.arc ((Int.tmod (d : Int) SIDES - 1 : Int) : ℚ)
            ((Int.tdiv (d : Int) SIDES - 1 : Int) : ℚ) (1 / 4),
          Cairo.fill]
      else [])) = (l.filter (fun d => hasBit v d)).map dotPos ∧
    texts (l.flatMap (fun d : Nat =>
      if Int.land v (1 <<< (d : Int)) ≠ 0 then
        [Cairo.arc ((Int.tmod (d : Int) SIDES - 1 : Int) : ℚ)
            ((Int.tdiv (d : Int) SIDES - 1 : Int) : ℚ) (1 / 4),
          Cairo.fill]
      else [])) = [] := by
  induction l with
  | nil => exact ⟨rfl, rfl⟩
  | cons d rest ih =>
    rw [List.flatMap_cons, dots_append, texts_append, ih.1, ih.2, List.filter_cons]
    by_cases hb : Int.land v (1 <<< (d : Int)) ≠ 0
    · have hb2 : hasBit v d = true := by
        unfold hasBit
        simpa using hb
      rw [if_pos hb, if_pos hb2, List.map_cons, ← dotPos_cast]
      exact ⟨rfl, rfl⟩
    · have hb2 : ¬ (hasBit v d = true) := by
        unfold hasBit
        simpa using hb
      rw [if_neg hb, if_neg hb2]
      exact ⟨rfl, rfl⟩

theorem glyph_zero (priv : SudokuCell) (w h : ℚ) (hv : priv.val = 0) :
    draw_glyph priv w h =
      [Cairo.set_source_rgb 1 0 0, Cairo.scale_zero w h, Cairo.draw_centered [63]] := by
  unfold draw_glyph
  simp only [hv, if_true]

theorem glyph_numeral (priv : SudokuCell) (w h : ℚ) (hm : priv.mode = 0) (d : Nat)
    (hd : d ≤ 8) (hv : priv.val = 2 ^ d) :
    draw_glyph priv w h = [Cairo.scale_zero w h, Cairo.draw_centered [49 + (d : Int)]] := by
  have h0 : ¬ ((2 : Int) ^ d = 0) := by positivity
  unfold draw_glyph
  simp only [hv, hm, if_true, if_neg h0, DIGITS_toNat, find_numeral d hd]

theorem glyph_dots (priv : SudokuCell) (w h : ℚ) (h0 : priv.val ≠ 0)
    (hn : ¬ (priv.mode = 0 ∧ ∃ d : Nat, d ≤ 8 ∧ priv.val = 2 ^ d)) :
    draw_glyph priv w h =
      if priv.val = ALL then []
      else
        [Cairo.scale (w / 4) (h / 4)] ++
        (List.range 9).flatMap (fun d : Nat =>
          if Int.land priv.val (1 <<< (d : Int)) ≠ 0 then
            [Cairo.arc ((Int.tmod (d : Int) SIDES - 1 : Int) : ℚ)
                ((Int.tdiv (d : Int) SIDES - 1 : Int) : ℚ) (1 / 4),
              Cairo.fill]
          else []) := by
  unfold draw_glyph
  simp only [if_neg h0, DIGITS_toNat]
  by_cases hm : priv.mode = 0
  · have hv : ∀ d : Nat, d ≤ 8 → priv.val ≠ 2 ^ d := fun d hd he => hn ⟨hm, d, hd, he⟩
    simp only [hm, if_true, find_numeral_none priv.val hv]
  · simp only [if_neg hm]

theorem singleton_bits (d : Nat) (hd : d ≤ 8) :
    (List.range 9).filter (fun e => hasBit (2 ^ d) e) = [d] ∧ (2 : Int) ^ d ≠ ALL ∧
      bitCount (2 ^ d) = 1 := by
  interval_cases d <;> decide

/-- C17: the glyph `draw` selects from the stored value `v` and the mode
`m`, in this order of precedence: (1) `v == 0` gives the string `"?"`,
whatever `m` is, also right after `set_val` drove the cell to 0; (2) else
`m == 0` and `v == 1 << d` give the numeral `'1' + d`; (3) else `v == ALL`
gives nothing; (4) else one disc per set bit `d` at place
`(d mod 3 - 1, d div 3 - 1)`, so as many discs as set bits, at distinct
places for distinct bits, and exactly one disc for a singleton under a
non-zero mode. -/
theorem draw_glyph_precedence (priv : SudokuCell) (w h lw : ℚ) :
    (priv.val = 0 →
      texts (draw priv w h lw) = [[63]] ∧ dots (draw priv w h lw) = []) ∧
    (∀ (cell : SudokuCell) (v m : Int), Int.land v ALL = 0 →
      texts (draw (sudoku_cell_set_val cell v m).1 w h lw) = [[63]] ∧
      dots (draw (sudoku_cell_set_val cell v m).1 w h lw) = []) ∧
    (priv.mode = 0 → ∀ d : Nat, d ≤ 8 → priv.val = 2 ^ d →
      texts (draw priv w h lw) = [[49 + (d : Int)]] ∧ dots (draw priv w h lw) = []) ∧
    (priv.val = ALL →
      texts (draw priv w h lw) = [] ∧ dots (draw priv w h lw) = []) ∧
    (priv.val ≠ 0 → ¬ (priv.mode = 0 ∧ ∃ d : Nat, d ≤ 8 ∧ priv.val = 2 ^ d) →
      priv.val ≠ ALL →
      texts (draw priv w h lw) = [] ∧
      dots (draw priv w h lw) = ((List.range 9).filter (fun d => hasBit priv.val d)).map dotPos ∧
      (dots (draw priv w h lw)).length = bitCount priv.val) ∧
    (∀ d e : Nat, d ≤ 8 → e ≤ 8 → dotPos d = dotPos e → d = e) ∧
    (priv.mode ≠ 0 → ∀ d : Nat, d ≤ 8 → priv.val = 2 ^ d →
      texts (draw priv w h lw) = [] ∧ dots (draw priv w h lw) = [dotPos d]) := by
  have hrest : ∀ p : SudokuCell, p.val ≠ 0 →
      ¬ (p.mode = 0 ∧ ∃ d : Nat, d ≤ 8 ∧ p.val = 2 ^ d) →
      texts (draw p w h lw) = [] ∧
      dots (draw p w h lw) =
        (if p.val = ALL then []
        else ((List.range 9).filter (fun d => hasBit p.val d)).map dotPos) := by
    intro p h0 hn
    rw [(draw_texts_dots p w h lw).1, (draw_texts_dots p w h lw).2, glyph_dots p w h h0 hn]
    by_cases ha : p.val = ALL
    · simp only [if_pos ha]
      exact ⟨rfl, rfl⟩
    · simp only [if_neg ha]
      rw [texts_append, dots_append, (dots_loop p.val (List.range 9)).1,
        (dots_loop p.val (List.range 9)).2]
      exact ⟨rfl, rfl⟩
  have hzero : ∀ p : SudokuCell, p.val = 0 →
      texts (draw p w h lw) = [[63]] ∧ dots (draw p w h lw) = [] := by
    intro p hv
    rw [(draw_texts_dots p w h lw).1, (draw_texts_dots p w h lw).2, glyph_zero p w h hv]
    exact ⟨rfl, rfl⟩
  refine ⟨hzero priv, ?_, ?_, ?_, ?_, ?_, ?_⟩
  · intro cell v m hv
    apply hzero
    rw [sudoku_cell_set_val_cell]
    exact hv
  · intro hm d hd hv
    rw [(draw_texts_dots priv w h lw).1, (draw_texts_dots priv w h lw).2,
      glyph_numeral priv w h hm d hd hv]
    exact ⟨rfl, rfl⟩
  · intro ha
    have h0 : priv.val ≠ 0 := by
      rw [ha]
      decide
    have hn : ¬ (priv.mode = 0 ∧ ∃ d : Nat, d ≤ 8 ∧ priv.val = 2 ^ d) := by
      rintro ⟨_, d, hd, he⟩
      exact (singleton_bits d hd).2.1 (he.symm.trans ha)
    have h := hrest priv h0 hn
    rw [if_pos ha] at h
    exact h
  · intro h0 hn ha
    have h := hrest priv h0 hn
    rw [if_neg ha] at h
    refine ⟨h.1, h.2, ?_⟩
    rw [h.2, List.length_map]
    rfl
  · intro d e hd he hpos
    unfold dotPos at hpos
    have h1 := (Prod.mk.inj hpos).1
    have h2 := (Prod.mk.inj hpos).2
    have h3 : ((d % 3 : Nat) : ℚ) = ((e % 3 : Nat) : ℚ) := by linarith
    have h4 : ((d / 3 : Nat) : ℚ) = ((e / 3 : Nat) : ℚ) := by linarith
    have h5 : d % 3 = e % 3 := by exact_mod_cast h3
    have h6 : d / 3 = e / 3 := by exact_mod_cast h4
    omega
  · intro hm d hd hv
    have h0 : priv.val ≠ 0 := by
      rw [hv]
      positivity
    have hn : ¬ (priv.mode = 0 ∧ ∃ d : Nat, d ≤ 8 ∧ priv.val = 2 ^ d) := fun hc => hm hc.1
    have h := hrest priv h0 hn
    have ha : priv.val ≠ ALL := by
      rw [hv]
      exact (singleton_bits d hd).2.1
    rw [if_neg ha, hv, (singleton_bits d hd).1] at h
    exact h

theorem draw_glyph_precedence_witness :
    (texts (draw { sudoku_cell_new 0 0 false with val := 0, mode := 1 } 40 30 2) = [[63]] ∧
      dots (draw { sudoku_cell_new 0 0 false with val := 0, mode := 1 } 40 30 2) = []) ∧
    (texts (draw { sudoku_cell_new 4 4 false with val := 2 ^ 4, mode := 0 } 40 30 2)
        = [[49 + ((4 : Nat) : Int)]] ∧
      dots (draw { sudoku_cell_new 4 4 false with val := 2 ^ 4, mode := 0 } 40 30 2) = []) ∧
    (texts (draw { sudoku_cell_new 4 4 false with val := 2 ^ 4, mode := 1 } 40 30 2) = [] ∧
      dots (draw { sudoku_cell_new 4 4 false with val := 2 ^ 4, mode := 1 } 40 30 2)
        = [dotPos 4]) ∧
    (texts (draw (sudoku_cell_new 8 8 true) 40 30 2) = [] ∧
      dots (draw (sudoku_cell_new 8 8 true) 40 30 2) = []) :=
  ⟨(draw_glyph_precedence { sudoku_cell_new 0 0 false with val := 0, mode := 1 } 40 30 2).1 rfl,
    (draw_glyph_precedence { sudoku_cell_new 4 4 false with val := 2 ^ 4, mode := 0 }
      40 30 2).2.2.1 rfl 4 (by decide) rfl,
    (draw_glyph_precedence { sudoku_cell_new 4 4 false with val := 2 ^ 4, mode := 1 }
      40 30 2).2.2.2.2.2.2 (by decide) 4 (by decide) rfl,
    (draw_glyph_precedence (sudoku_cell_new 8 8 true) 40 30 2).2.2.2.1 rfl⟩

/-! ## The lines -/

theorem strokesFrom_append (a b : List Cairo) (pen : Pen) :
    strokesFrom pen (a ++ b) = strokesFrom pen a ++ strokesFrom (a.foldl Pen.step pen) b := by
  induction a generalizing pen with
  | nil => rfl
  | cons op rest ih =>
    cases op <;> simp [strokesFrom, ih, List.foldl_cons]

theorem strokesFrom_no_stroke (ops : List Cairo) (pen : Pen)
    (h : ∀ op ∈ ops, op ≠ Cairo.stroke) : strokesFrom pen ops = [] := by
  induction ops generalizing pen with
  | nil => rfl
  | cons op rest ih =>
    have hop : op ≠ Cairo.stroke := h op (List.mem_cons_self op rest)
    have hrest : ∀ x ∈ rest, x ≠ Cairo.stroke := fun x hx => h x (List.mem_cons_of_mem op hx)
    cases op <;> first
      | exact absurd rfl hop
      | (simp only [strokesFrom]; exact ih _ hrest)

theorem draw_glyph_no_stroke (priv : SudokuCell) (w h : ℚ) :
    ∀ op ∈ draw_glyph priv w h, op ≠ Cairo.stroke := by
  intro op hop
  by_cases h0 : priv.val = 0
  · rw [glyph_zero priv w h h0] at hop
    simp only [List.mem_cons, List.mem_singleton, List.mem_nil_iff, or_false] at hop
    rcases hop with rfl | rfl | rfl <;> exact fun hc => Cairo.noConfusion hc
  · by_cases hn : priv.mode = 0 ∧ ∃ d : Nat, d ≤ 8 ∧ priv.val = 2 ^ d
    · obtain ⟨hm, d, hd, hv⟩ := hn
      rw [glyph_numeral priv w h hm d hd hv] at hop
      simp only [List.mem_cons, List.mem_singleton, List.mem_nil_iff, or_false] at hop
      rcases hop with rfl | rfl <;> exact fun hc => Cairo.noConfusion hc
    · rw [glyph_dots priv w h h0 hn] at hop
      by_cases ha : priv.val = ALL
      · rw [if_pos ha] at hop
        exact absurd hop (List.not_mem_nil op)
      · rw [if_neg ha] at hop
        simp only [List.mem_append, List.mem_singleton, List.mem_flatMap] at hop
        rcases hop with rfl | ⟨d, _, hd⟩
        · exact fun hc => Cairo.noConfusion hc
        · by_cases hb : Int.land priv.val (1 <<< (d : Int)) ≠ 0
          · rw [if_pos hb] at hd
            simp only [List.mem_cons, List.mem_singleton, List.mem_nil_iff, or_false] at hd
            rcases hd with rfl | rfl <;> exact fun hc => Cairo.noConfusion hc
          · rw [if_neg hb] at hd
            exact absurd hd (List.not_mem_nil op)

theorem draw_rows_strokes (row : Int) (w h lw y : ℚ) :
    strokesFrom (Pen.start lw) (draw_rows row w h lw y).1 =
      (if row = 0 then [(OUTSIDE * lw, Edge.top.ends w h)]
      else if row = 8 then [(OUTSIDE * lw, Edge.bottom.ends w h)]
      else []) ∧
    (draw_rows row w h lw y).1.foldl Pen.step (Pen.start lw) = Pen.start lw := by
  unfold draw_rows
  by_cases h0 : row = 0
  · simp only [if_pos h0]
    exact ⟨rfl, rfl⟩
  · by_cases h8 : row = 8
    · have h36 : ¬ (row = 3 ∨ row = 6) := by omega
      simp only [if_neg h0, if_neg h36, if_pos h8]
      exact ⟨rfl, rfl⟩
    · simp only [if_neg h0, if_neg h8]
      split_ifs <;> exact ⟨rfl, rfl⟩

theorem draw_cols_strokes (col : Int) (w h lw x : ℚ) :
    strokesFrom (Pen.start lw) (draw_cols col w h lw x).1 =
      (if col = 0 then [(OUTSIDE * lw, Edge.left.ends w h)]
      else if col = 8 then [(OUTSIDE * lw, Edge.right.ends w h)]
      else []) ∧
    (draw_cols col w h lw x).1.foldl Pen.step (Pen.start lw) = Pen.start lw := by
  unfold draw_cols
  by_cases h0 : col = 0
  · simp only [if_pos h0]
    exact ⟨rfl, rfl⟩
  · by_cases h8 : col = 8
    · have h36 : ¬ (col = 3 ∨ col = 6) := by omega
      simp only [if_neg h0, if_neg h36, if_pos h8]
      exact ⟨rfl, rfl⟩
    · simp only [if_neg h0, if_neg h8]
      split_ifs <;> exact ⟨rfl, rfl⟩

/-- Where `draw` calls `draw_square` the line width is the one `draw` was
entered with. -/
theorem draw_line_width (priv : SudokuCell) (w h lw x y : ℚ) :
    cairo_get_line_width lw
      ((draw_rows priv.row w h lw y).1 ++ (draw_cols priv.col w h lw x).1) = lw := by
  unfold cairo_get_line_width
  rw [List.foldl_append, (draw_rows_strokes priv.row w h lw y).2,
    (draw_cols_strokes priv.col w h lw x).2]
  rfl

/-- The segments `draw` strokes are those of the two outer border switches
followed by those of `draw_square`. -/
theorem draw_strokes (priv : SudokuCell) (w h lw : ℚ) :
    strokes lw (draw priv w h lw) =
      (if priv.row = 0 then [(OUTSIDE * lw, Edge.top.ends w h)]
        else if priv.row = 8 then [(OUTSIDE * lw, Edge.bottom.ends w h)]
        else []) ++
      (if priv.col = 0 then [(OUTSIDE * lw, Edge.left.ends w h)]
        else if priv.col = 8 then [(OUTSIDE * lw, Edge.right.ends w h)]
        else []) ++
      strokes lw (draw_square priv w h lw) := by
  unfold strokes draw
  simp only [draw_line_width]
  rw [strokesFrom_append, strokesFrom_append, strokesFrom_append, strokesFrom_append,
    (draw_rows_strokes _ _ _ _ _).1]
  simp only [List.foldl_append, (draw_rows_strokes _ _ _ _ _).2,
    (draw_cols_strokes _ _ _ _ _).1, (draw_cols_strokes _ _ _ _ _).2]
  rw [strokesFrom_no_stroke _ _ (draw_glyph_no_stroke priv w h)]
  simp [strokesFrom]

theorem tmod_three (a : Int) (ha : 0 ≤ a) :
    Int.tmod a SIDES = a % 3 ∧ (a % 3 = 0 ∨ a % 3 = 1 ∨ a % 3 = 2) := by
  have h3 : SIDES = 3 := rfl
  rw [h3, Int.tmod_eq_emod ha (by norm_num)]
  refine ⟨rfl, ?_⟩
  omega

theorem draw_square_weights (priv : SudokuCell) (w h lw : ℚ) :
    ∀ s ∈ strokes lw (draw_square priv w h lw), s.1 = INSIDE * lw := by
  unfold draw_square
  simp only
  split_ifs <;>
    simp [strokes, strokesFrom, Pen.step, Pen.start]

/-- The edges `draw_square` strokes, by the place of the cell in its block:
the top edge unless the cell is in the bottom row of the block, the bottom
edge unless it is in the top row, and the same for left and right with the
columns. -/
theorem draw_square_edges (priv : SudokuCell) (w h lw : ℚ) (hr : 0 ≤ priv.row)
    (hc : 0 ≤ priv.col) (hw : w ≠ 0) (hh : h ≠ 0) :
    (strokesEdge (strokes lw (draw_square priv w h lw)) (INSIDE * lw) w h Edge.top = true
      ↔ priv.row % 3 ≠ 2) ∧
    (strokesEdge (strokes lw (draw_square priv w h lw)) (INSIDE * lw) w h Edge.bottom = true
      ↔ priv.row % 3 ≠ 0) ∧
    (strokesEdge (strokes lw (draw_square priv w h lw)) (INSIDE * lw) w h Edge.left = true
      ↔ priv.col % 3 ≠ 2) ∧
    (strokesEdge (strokes lw (draw_square priv w h lw)) (INSIDE * lw) w h Edge.right = true
      ↔ priv.col % 3 ≠ 0) := by
  obtain ⟨hrt, hrm⟩ := tmod_three priv.row hr
  obtain ⟨hct, hcm⟩ := tmod_three priv.col hc
  have hw2 : ¬ (0 = w) := fun e => hw e.symm
  have hh2 : ¬ (0 = h) := fun e => hh e.symm
  have hwh : ¬ ((0 : ℚ × ℚ) = (w, h)) := by
    intro e
    exact hw2 (congrArg Prod.fst e)
  have hwh2 : ¬ ((w, h) = (0 : ℚ × ℚ)) := fun e => hwh e.symm
  unfold draw_square
  simp only [hrt, hct]
  rcases hrm with h1 | h1 | h1 <;> rcases hcm with h2 | h2 | h2 <;>
    simp [h1, h2, strokes, strokesFrom, Pen.step, Pen.start, strokesEdge, Edge.ends, hw, hh,
      hw2, hh2, hwh, hwh2]

theorem strokesEdge_other_weight (ss : List (ℚ × ((ℚ × ℚ) × (ℚ × ℚ)))) (a wt w h : ℚ)
    (e : Edge) (hs : ∀ s ∈ ss, s.1 = a) (hne : a ≠ wt) : strokesEdge ss wt w h e = false := by
  unfold strokesEdge
  rw [List.any_eq_false]
  intro s hmem
  have h1 := hs s hmem
  simp only [decide_eq_true_eq]
  rintro ⟨h2, _⟩
  exact hne (h1.symm.trans h2)

theorem strokesEdge_append (a b : List (ℚ × ((ℚ × ℚ) × (ℚ × ℚ)))) (wt w h : ℚ) (e : Edge) :
    strokesEdge (a ++ b) wt w h e = (strokesEdge a wt w h e || strokesEdge b wt w h e) := by
  unfold strokesEdge
  rw [List.any_append]

/-- C18: on a cell of positive width and height drawn with a positive line
width, `draw` strokes at four times the line width the top edge exactly when
`row == 0`, the bottom edge exactly when `row == 8`, the left edge exactly
when `col == 0` and the right edge exactly when `col == 8`; value and mode
have no part in what is stroked. -/
theorem outer_border (priv : SudokuCell) (w h lw : ℚ) (hw : 0 < w) (hh : 0 < h)
    (hl : 0 < lw) :
    (outerEdge priv w h lw Edge.top = true ↔ priv.row = 0) ∧
    (outerEdge priv w h lw Edge.bottom = true ↔ priv.row = 8) ∧
    (outerEdge priv w h lw Edge.left = true ↔ priv.col = 0) ∧
    (outerEdge priv w h lw Edge.right = true ↔ priv.col = 8) ∧
    OUTSIDE * lw = 4 * lw ∧
    (∀ v m : Int, strokes lw (draw { priv with val := v, mode := m } w h lw)
      = strokes lw (draw priv w h lw)) := by
  have hw1 : w ≠ 0 := ne_of_gt hw
  have hh1 : h ≠ 0 := ne_of_gt hh
  have hw2 : ¬ (0 = w) := fun e => hw1 e.symm
  have hh2 : ¬ (0 = h) := fun e => hh1 e.symm
  have hwh : ¬ ((0 : ℚ × ℚ) = (w, h)) := fun e => hw2 (congrArg Prod.fst e)
  have hwh2 : ¬ ((w, h) = (0 : ℚ × ℚ)) := fun e => hwh e.symm
  have hne : INSIDE * lw ≠ OUTSIDE * lw := by
    unfold INSIDE OUTSIDE
    intro e
    linarith
  have hS : ∀ e, strokesEdge (strokes lw (draw_square priv w h lw)) (OUTSIDE * lw) w h e
      = false :=
    fun e => strokesEdge_other_weight _ _ _ _ _ e (draw_square_weights priv w h lw) hne
  have hrow : priv.row = 0 ∨ priv.row = 8 ∨ (priv.row ≠ 0 ∧ priv.row ≠ 8) := by omega
  have hcol : priv.col = 0 ∨ priv.col = 8 ∨ (priv.col ≠ 0 ∧ priv.col ≠ 8) := by omega
  refine ⟨?_, ?_, ?_, ?_, rfl, ?_⟩
  · unfold outerEdge
    rw [draw_strokes, strokesEdge_append, strokesEdge_append, hS]
    rcases hrow with h1 | h1 | ⟨h1, h1b⟩ <;> rcases hcol with h2 | h2 | ⟨h2, h2b⟩ <;>
      simp [h1, h2, strokesEdge, Edge.ends, hw1, hh1, hw2, hh2, hwh, hwh2, *]
  · unfold outerEdge
    rw [draw_strokes, strokesEdge_append, strokesEdge_append, hS]
    rcases hrow with h1 | h1 | ⟨h1, h1b⟩ <;> rcases hcol with h2 | h2 | ⟨h2, h2b⟩ <;>
      simp [h1, h2, strokesEdge, Edge.ends, hw1, hh1, hw2, hh2, hwh, hwh2, *]
  · unfold outerEdge
    rw [draw_strokes, strokesEdge_append, strokesEdge_append, hS]
    rcases hrow with h1 | h1 | ⟨h1, h1b⟩ <;> rcases hcol with h2 | h2 | ⟨h2, h2b⟩ <;>
      simp [h1, h2, strokesEdge, Edge.ends, hw1, hh1, hw2, hh2, hwh, hwh2, *]
  · unfold outerEdge
    rw [draw_strokes, strokesEdge_append, strokesEdge_append, hS]
    rcases hrow with h1 | h1 | ⟨h1, h1b⟩ <;> rcases hcol with h2 | h2 | ⟨h2, h2b⟩ <;>
      simp [h1, h2, strokesEdge, Edge.ends, hw1, hh1, hw2, hh2, hwh, hwh2, *]
  · intro v m
    rw [draw_strokes, draw_strokes]
    rfl

theorem outer_border_witness :
    ((0 : ℚ) < 40 ∧ (0 : ℚ) < 30 ∧ (0 : ℚ) < 2) ∧
    ((outerEdge (sudoku_cell_new 0 8 true) 40 30 2 Edge.top = true
        ↔ (sudoku_cell_new 0 8 true).row = 0) ∧
    (outerEdge (sudoku_cell_new 0 8 true) 40 30 2 Edge.bottom = true
        ↔ (sudoku_cell_new 0 8 true).row = 8) ∧
    (outerEdge (sudoku_cell_new 0 8 true) 40 30 2 Edge.left = true
        ↔ (sudoku_cell_new 0 8 true).col = 0) ∧
    (outerEdge (sudoku_cell_new 0 8 true) 40 30 2 Edge.right = true
        ↔ (sudoku_cell_new 0 8 true).col = 8) ∧
    OUTSIDE * (2 : ℚ) = 4 * 2 ∧
    (∀ v m : Int,
      strokes 2 (draw { sudoku_cell_new 0 8 true with val := v, mode := m } 40 30 2)
        = strokes 2 (draw (sudoku_cell_new 0 8 true) 40 30 2))) :=
  ⟨by norm_num,
    outer_border (sudoku_cell_new 0 8 true) 40 30 2 (by norm_num) (by norm_num)
      (by norm_num)⟩

theorem squareEdge_iff (priv : SudokuCell) (w h lw : ℚ) (hr : 0 ≤ priv.row)
    (hc : 0 ≤ priv.col) (hw : 0 < w) (hh : 0 < h) :
    (squareEdge priv w h lw Edge.top = true ↔ priv.row % 3 ≠ 2) ∧
    (squareEdge priv w h lw Edge.bottom = true ↔ priv.row % 3 ≠ 0) ∧
    (squareEdge priv w h lw Edge.left = true ↔ priv.col % 3 ≠ 2) ∧
    (squareEdge priv w h lw Edge.right = true ↔ priv.col % 3 ≠ 0) :=
  draw_square_edges priv w h lw hr hc (ne_of_gt hw) (ne_of_gt hh)

/-- C19: for cells at `(row, col)` in `[0, 9) x [0, 9)` of positive width
and height, the edges `draw_square` strokes, all at twice the line width,
depend only on `(row mod 3, col mod 3)`; cells at different places of their
blocks get different edge sets; a cell in the top row of its block gets its
top edge, one in the bottom row its bottom edge, the centre cell all four;
and exchanging row and column exchanges top with left and bottom with
right. -/
theorem block_border (p q : SudokuCell) (w h lw : ℚ) (hw : 0 < w) (hh : 0 < h)
    (hp : 0 ≤ p.row ∧ p.row < 9 ∧ 0 ≤ p.col ∧ p.col < 9)
    (hq : 0 ≤ q.row ∧ q.row < 9 ∧ 0 ≤ q.col ∧ q.col < 9) :
    (∀ s ∈ strokes lw (draw_square p w h lw), s.1 = 2 * lw) ∧
    (p.row % 3 = q.row % 3 → p.col % 3 = q.col % 3 →
      draw_square p w h lw = draw_square q w h lw ∧
      ∀ e, squareEdge p w h lw e = squareEdge q w h lw e) ∧
    ((∀ e, squareEdge p w h lw e = squareEdge q w h lw e) →
      p.row % 3 = q.row % 3 ∧ p.col % 3 = q.col % 3) ∧
    (p.row % 3 = 0 → squareEdge p w h lw Edge.top = true) ∧
    (p.row % 3 = 2 → squareEdge p w h lw Edge.bottom = true) ∧
    (p.row % 3 = 1 → p.col % 3 = 1 → ∀ e, squareEdge p w h lw e = true) ∧
    (squareEdge { p with row := p.col, col := p.row } w h lw Edge.top
        = squareEdge p w h lw Edge.left ∧
      squareEdge { p with row := p.col, col := p.row } w h lw Edge.left
        = squareEdge p w h lw Edge.top ∧
      squareEdge { p with row := p.col, col := p.row } w h lw Edge.bottom
        = squareEdge p w h lw Edge.right ∧
      squareEdge { p with row := p.col, col := p.row } w h lw Edge.right
        = squareEdge p w h lw Edge.bottom) := by
  obtain ⟨pt, pb, pl, pr⟩ := squareEdge_iff p w h lw hp.1 hp.2.2.1 hw hh
  obtain ⟨qt, qb, ql, qr⟩ := squareEdge_iff q w h lw hq.1 hq.2.2.1 hw hh
  obtain ⟨st, sb, sl, sr⟩ :=
    squareEdge_iff { p with row := p.col, col := p.row } w h lw hp.2.2.1 hp.1 hw hh
  simp only at st sb sl sr
  refine ⟨?_, ?_, ?_, ?_, ?_, ?_, ?_⟩
  · intro s hs
    rw [draw_square_weights p w h lw s hs]
    rfl
  · intro h1 h2
    have hd : draw_square p w h lw = draw_square q w h lw := by
      unfold draw_square
      rw [(tmod_three p.row hp.1).1, (tmod_three p.col hp.2.2.1).1,
        (tmod_three q.row hq.1).1, (tmod_three q.col hq.2.2.1).1, h1, h2]
    refine ⟨hd, ?_⟩
    intro e
    unfold squareEdge
    rw [hd]
  · intro he
    have e1 := he Edge.top
    have e2 := he Edge.bottom
    have e3 := he Edge.left
    have e4 := he Edge.right
    have t1 : p.row % 3 ≠ 2 ↔ q.row % 3 ≠ 2 := by rw [← pt, ← qt, e1]
    have t2 : p.row % 3 ≠ 0 ↔ q.row % 3 ≠ 0 := by rw [← pb, ← qb, e2]
    have t3 : p.col % 3 ≠ 2 ↔ q.col % 3 ≠ 2 := by rw [← pl, ← ql, e3]
    have t4 : p.col % 3 ≠ 0 ↔ q.col % 3 ≠ 0 := by rw [← pr, ← qr, e4]
    omega
  · intro h1
    rw [pt]
    omega
  · intro h1
    rw [pb]
    omega
  · intro h1 h2 e
    cases e
    · rw [pt]; omega
    · rw [pb]; omega
    · rw [pl]; omega
    · rw [pr]; omega
  · refine ⟨?_, ?_, ?_, ?_⟩
    · rw [Bool.eq_iff_iff, st, pl]
    · rw [Bool.eq_iff_iff, sl, pt]
    · rw [Bool.eq_iff_iff, sb, pr]
    · rw [Bool.eq_iff_iff, sr, pb]

theorem block_border_witness :
    (((0 : ℚ) < 40 ∧ (0 : ℚ) < 30) ∧
      (0 ≤ (sudoku_cell_new 4 7 true).row ∧ (sudoku_cell_new 4 7 true).row < 9 ∧
        0 ≤ (sudoku_cell_new 4 7 true).col ∧ (sudoku_cell_new 4 7 true).col < 9) ∧
      (0 ≤ (sudoku_cell_new 1 1 false).row ∧ (sudoku_cell_new 1 1 false).row < 9 ∧
        0 ≤ (sudoku_cell_new 1 1 false).col ∧ (sudoku_cell_new 1 1 false).col < 9)) ∧
    (∀ e, squareEdge (sudoku_cell_new 4 7 true) 40 30 2 e = true) ∧
    (draw_square (sudoku_cell_new 4 7 true) 40 30 2
        = draw_square (sudoku_cell_new 1 1 false) 40 30 2) ∧
    (squareEdge { sudoku_cell_new 4 7 true with row := 7, col := 4 } 40 30 2 Edge.top
        = squareEdge (sudoku_cell_new 4 7 true) 40 30 2 Edge.left) :=
  ⟨⟨by norm_num, by decide, by decide⟩,
    (block_border (sudoku_cell_new 4 7 true) (sudoku_cell_new 1 1 false) 40 30 2
      (by norm_num) (by norm_num) (by decide) (by decide)).2.2.2.2.2.1 (by decide) (by decide),
    ((block_border (sudoku_cell_new 4 7 true) (sudoku_cell_new 1 1 false) 40 30 2
      (by norm_num) (by norm_num) (by decide) (by decide)).2.1 (by decide) (by decide)).1,
    (block_border (sudoku_cell_new 4 7 true) (sudoku_cell_new 1 1 false) 40 30 2
      (by norm_num) (by norm_num) (by decide) (by decide)).2.2.2.2.2.2.1⟩

/-! ## Cells that are not editable -/

theorem board_key_press_cell (b : SudokuBoard) (e : KeyEvent) (i j : Fin 9) :
    (board_key_press b e).1.board i j =
      if i = e.row ∧ j = e.col then
        (sudoku_cell_key_press (b.board e.row e.col) e.keyval e.bindings).cell
      else b.board i j := by
  show (b.store e.row e.col
    (sudoku_cell_key_press (b.board e.row e.col) e.keyval e.bindings).cell).board i j = _
  by_cases hij : i = e.row ∧ j = e.col
  · obtain ⟨h1, h2⟩ := hij
    subst h1 h2
    rw [store_same]
    simp
  · rw [store_other _ _ _ _ _ _ hij, if_neg hij]

/-- C21: a cell made with `editable = false`, as every cell of a board built
by `sudoku_board_new(FALSE)` is, comes out of `sudoku_cell_key_press` with
its value and mode as they were and without a change notification, whatever
the key; on a board of such cells a key press changes no cell; `set_val`
still changes the cell and leaves it not editable. -/
theorem key_press_read_only (cell : SudokuCell) (he : cell.editable = false)
    (keyval : Int) (bnd : Bool) :
    (sudoku_cell_key_press cell keyval bnd).cell = cell ∧
    notifications (sudoku_cell_key_press cell keyval bnd).effects = [] ∧
    (sudoku_cell_key_press cell keyval bnd).effects = [Effect.bindings keyval] ∧
    (∀ row col : Int, (sudoku_cell_new row col false).editable = false) ∧
    (∀ r c : Fin 9, ((sudoku_board_new false).board r c).editable = false) ∧
    (∀ b : SudokuBoard, (∀ r c : Fin 9, (b.board r c).editable = false) →
      ∀ e : KeyEvent, (∀ i j : Fin 9, (board_key_press b e).1.board i j = b.board i j) ∧
        notifications (board_key_press b e).2 = []) ∧
    (∀ v m : Int, (sudoku_cell_set_val cell v m).1.editable = false ∧
      (sudoku_cell_set_val cell v m).1.val = Int.land v ALL ∧
      (sudoku_cell_set_val cell v m).1.mode = m) := by
  have hk : ∀ (c : SudokuCell), c.editable = false → ∀ (k : Int) (bd : Bool),
      sudoku_cell_key_press c k bd = { cell := c, effects := [Effect.bindings k], ret := bd } :=
    fun c hc k bd => key_press_not_editable c hc k bd
  refine ⟨?_, ?_, ?_, fun _ _ => rfl, fun _ _ => rfl, ?_, ?_⟩
  · rw [hk cell he]
  · rw [hk cell he]
    rfl
  · rw [hk cell he]
  · intro b hb e
    refine ⟨?_, ?_⟩
    · intro i j
      rw [board_key_press_cell, hk _ (hb e.row e.col)]
      by_cases hij : i = e.row ∧ j = e.col
      · rw [if_pos hij, hij.1, hij.2]
      · rw [if_neg hij]
    · show notifications
        (sudoku_cell_key_press (b.board e.row e.col) e.keyval e.bindings).effects = []
      rw [hk _ (hb e.row e.col)]
      rfl
  · intro v m
    rw [sudoku_cell_set_val_cell]
    exact ⟨he, rfl, rfl⟩

theorem key_press_read_only_witness :
    (sudoku_cell_new 3 5 false).editable = false ∧
    (sudoku_cell_key_press (sudoku_cell_new 3 5 false) (GDK_KEY_1 + 4) true).cell
      = sudoku_cell_new 3 5 false ∧
    notifications
      (sudoku_cell_key_press (sudoku_cell_new 3 5 false) (GDK_KEY_1 + 4) true).effects = [] ∧
    (sudoku_cell_key_press (sudoku_cell_new 3 5 true) (GDK_KEY_1 + 4) true).cell.val = 16 :=
  ⟨rfl, (key_press_read_only (sudoku_cell_new 3 5 false) rfl (GDK_KEY_1 + 4) true).1,
    (key_press_read_only (sudoku_cell_new 3 5 false) rfl (GDK_KEY_1 + 4) true).2.1,
    by decide⟩

/-! ## Edges shared by neighbours -/

/-- C24: for a cell at `(r, c)` in `[0, 9) x [0, 9)` of positive width and
height, the edge it shares with the cell below (`r < 8`) is stroked by
`draw_square` for at least one of the two, as the bottom edge of the upper or
the top edge of the lower cell, for both exactly when `r mod 3 == 2` and for
exactly one otherwise; the same holds with the cell to the right (`c < 8`),
columns in place of rows. -/
theorem shared_edges (p : SudokuCell) (w h lw : ℚ) (hw : 0 < w) (hh : 0 < h)
    (hp : 0 ≤ p.row ∧ p.row < 9 ∧ 0 ≤ p.col ∧ p.col < 9) :
    (p.row < 8 →
      (squareEdge p w h lw Edge.bottom = true ∨
        squareEdge { p with row := p.row + 1 } w h lw Edge.top = true) ∧
      ((squareEdge p w h lw Edge.bottom = true ∧
        squareEdge { p with row := p.row + 1 } w h lw Edge.top = true) ↔ p.row % 3 = 2) ∧
      (p.row % 3 ≠ 2 →
        (squareEdge p w h lw Edge.bottom = true ↔
          squareEdge { p with row := p.row + 1 } w h lw Edge.top = false))) ∧
    (p.col < 8 →
      (squareEdge p w h lw Edge.right = true ∨
        squareEdge { p with col := p.col + 1 } w h lw Edge.left = true) ∧
      ((squareEdge p w h lw Edge.right = true ∧
        squareEdge { p with col := p.col + 1 } w h lw Edge.left = true) ↔ p.col % 3 = 2) ∧
      (p.col % 3 ≠ 2 →
        (squareEdge p w h lw Edge.right = true ↔
          squareEdge { p with col := p.col + 1 } w h lw Edge.left = false))) := by
  obtain ⟨_, pb, _, pr⟩ := squareEdge_iff p w h lw hp.1 hp.2.2.1 hw hh
  have hq := squareEdge_iff { p with row := p.row + 1 } w h lw
    (by show 0 ≤ p.row + 1; omega) hp.2.2.1 hw hh
  have hr := squareEdge_iff { p with col := p.col + 1 } w h lw hp.1
    (by show 0 ≤ p.col + 1; omega) hw hh
  have qt := hq.1
  have rl := hr.2.2.1
  simp only at qt rl
  refine ⟨?_, ?_⟩
  · intro _
    rw [← Bool.not_eq_true, pb, qt]
    refine ⟨?_, ?_, ?_⟩ <;> omega
  · intro _
    rw [← Bool.not_eq_true, pr, rl]
    refine ⟨?_, ?_, ?_⟩ <;> omega

theorem shared_edges_witness :
    (((0 : ℚ) < 40 ∧ (0 : ℚ) < 30) ∧
      (0 ≤ (sudoku_cell_new 2 3 true).row ∧ (sudoku_cell_new 2 3 true).row < 9 ∧
        0 ≤ (sudoku_cell_new 2 3 true).col ∧ (sudoku_cell_new 2 3 true).col < 9)) ∧
    ((squareEdge (sudoku_cell_new 2 3 true) 40 30 2 Edge.bottom = true ∧
        squareEdge { sudoku_cell_new 2 3 true with row := (sudoku_cell_new 2 3 true).row + 1 }
          40 30 2 Edge.top = true)
      ↔ (sudoku_cell_new 2 3 true).row % 3 = 2) ∧
    (squareEdge (sudoku_cell_new 2 3 true) 40 30 2 Edge.right = true ∨
      squareEdge { sudoku_cell_new 2 3 true with col := (sudoku_cell_new 2 3 true).col + 1 }
        40 30 2 Edge.left = true) :=
  ⟨⟨by norm_num, by decide⟩,
    ((shared_edges (sudoku_cell_new 2 3 true) 40 30 2 (by norm_num) (by norm_num)
      (by decide)).1 (by decide)).2.1,
    ((shared_edges (sudoku_cell_new 2 3 true) 40 30 2 (by norm_num) (by norm_num)
      (by decide)).2 (by decide)).1⟩

/-! ## The origin of the glyph -/

theorem origin_append_none (a b : List Cairo) (h : origin a = none) :
    origin (a ++ b) = origin b := by
  unfold origin at *
  rw [List.findSome?_append, h]
  rfl

theorem draw_rows_origin (row : Int) (w h lw y : ℚ) :
    origin (draw_rows row w h lw y).1 = none ∧
      (draw_rows row w h lw y).2 = y + nudge row * (OFFSET * lw) := by
  unfold draw_rows nudge
  by_cases h0 : row = 0
  · simp only [if_pos h0]
    exact ⟨rfl, by ring⟩
  · by_cases h36 : row = 3 ∨ row = 6
    · have h8 : ¬ row = 8 := by omega
      simp only [if_neg h0, if_pos h36, if_neg h8]
      exact ⟨rfl, by ring⟩
    · by_cases h8 : row = 8
      · simp only [if_neg h0, if_neg h36, if_pos h8]
        exact ⟨rfl, by ring⟩
      · by_cases h25 : row = 2 ∨ row = 5
        · have h52 : row = 5 ∨ row = 2 := by omega
          simp only [if_neg h0, if_neg h36, if_neg h8, if_pos h25, if_pos h52]
          exact ⟨rfl, by ring⟩
        · have h52 : ¬ (row = 5 ∨ row = 2) := by omega
          simp only [if_neg h0, if_neg h36, if_neg h8, if_neg h25, if_neg h52]
          exact ⟨rfl, by ring⟩

theorem draw_cols_origin (col : Int) (w h lw x : ℚ) :
    origin (draw_cols col w h lw x).1 = none ∧
      (draw_cols col w h lw x).2 = x + nudge col * (OFFSET * lw) := by
  unfold draw_cols nudge
  by_cases h0 : col = 0
  · simp only [if_pos h0]
    exact ⟨rfl, by ring⟩
  · by_cases h36 : col = 3 ∨ col = 6
    · have h8 : ¬ col = 8 := by omega
      simp only [if_neg h0, if_pos h36, if_neg h8]
      exact ⟨rfl, by ring⟩
    · by_cases h8 : col = 8
      · simp only [if_neg h0, if_neg h36, if_pos h8]
        exact ⟨rfl, by ring⟩
      · by_cases h25 : col = 2 ∨ col = 5
        · have h52 : col = 5 ∨ col = 2 := by omega
          simp only [if_neg h0, if_neg h36, if_neg h8, if_pos h25, if_pos h52]
          exact ⟨rfl, by ring⟩
        · have h52 : ¬ (col = 5 ∨ col = 2) := by omega
          simp only [if_neg h0, if_neg h36, if_neg h8, if_neg h25, if_neg h52]
          exact ⟨rfl, by ring⟩

theorem draw_square_origin (priv : SudokuCell) (w h lw : ℚ) :
    origin (draw_square priv w h lw) = none := by
  unfold draw_square
  simp only
  split_ifs <;> rfl

theorem nudge_table :
    nudge 0 = 1 ∧ nudge 1 = 0 ∧ nudge 2 = -(1 / 2) ∧ nudge 3 = 1 / 2 ∧ nudge 4 = 0 ∧
      nudge 5 = -(1 / 2) ∧ nudge 6 = 1 / 2 ∧ nudge 7 = 0 ∧ nudge 8 = -1 := by
  refine ⟨?_, ?_, ?_, ?_, ?_, ?_, ?_, ?_, ?_⟩ <;> simp [nudge]

/-- C22: the origin `draw` translates to before it draws the glyph is the
centre of the cell moved down by `nudge row` and right by `nudge col` times
`OFFSET * line_w`, where `nudge` is 1 at index 0, -1 at index 8, 1/2 at 3
and 6, -1/2 at 2 and 5, and 0 at 1, 4 and 7.  So the move is away from the
outer or block border next to the cell (down or right in the first row or
column of a block, up or left in the last, none in the middle), and the
move for index `8 - i` is the opposite of the one for `i`. -/
theorem glyph_origin (priv : SudokuCell) (w h lw : ℚ) :
    origin (draw priv w h lw) =
      some (w / 2 + nudge priv.col * (OFFSET * lw), h / 2 + nudge priv.row * (OFFSET * lw)) ∧
    (nudge 0 = 1 ∧ nudge 1 = 0 ∧ nudge 2 = -(1 / 2) ∧ nudge 3 = 1 / 2 ∧ nudge 4 = 0 ∧
      nudge 5 = -(1 / 2) ∧ nudge 6 = 1 / 2 ∧ nudge 7 = 0 ∧ nudge 8 = -1) ∧
    (∀ i : Int, 0 ≤ i → i ≤ 8 → nudge (8 - i) = -nudge i) ∧
    (∀ i : Int, 0 ≤ i → i ≤ 8 →
      (i % 3 = 0 → 0 < nudge i) ∧ (i % 3 = 1 → nudge i = 0) ∧ (i % 3 = 2 → nudge i < 0)) := by
  obtain ⟨t0, t1, t2, t3, t4, t5, t6, t7, t8⟩ := nudge_table
  refine ⟨?_, nudge_table, ?_, ?_⟩
  · unfold draw
    simp only [List.append_assoc]
    rw [origin_append_none _ _ (draw_rows_origin _ _ _ _ _).1,
      origin_append_none _ _ (draw_cols_origin _ _ _ _ _).1,
      origin_append_none _ _ (draw_square_origin _ _ _ _),
      (draw_rows_origin _ _ _ _ _).2, (draw_cols_origin _ _ _ _ _).2]
    rfl
  · intro i h0 h8
    interval_cases i <;> norm_num [t0, t1, t2, t3, t4, t5, t6, t7, t8]
  · intro i h0 h8
    interval_cases i <;> norm_num [t0, t1, t2, t3, t4, t5, t6, t7, t8]

/-! ## The reads of `sudoku_dialog_set` -/

theorem boardlenLoop_le_strlen (s : List Int) (n : Nat) :
    boardlenLoop s n ≤ n + strlen s := by
  induction s generalizing n with
  | nil => simp [boardlenLoop]
  | cons c rest ih =>
    rw [boardlenLoop]
    by_cases hc : c = 0
    · rw [if_pos hc]
      omega
    · rw [if_neg hc]
      have hs : strlen (c :: rest) = strlen rest + 1 := by
        unfold strlen
        rw [List.takeWhile_cons_of_pos (by simpa using hc), List.length_cons]
      rw [hs]
      by_cases hb : isboardchar c = true
      · rw [if_pos hb]
        have h := ih (n + 1)
        omega
      · rw [if_neg hb]
        have h := ih n
        omega

theorem strlen_le_length (s : List Int) : strlen s ≤ s.length := by
  unfold strlen
  exact (List.takeWhile_sublist _).length_le

theorem traced_cols_spec (s : List Int) (row : Nat) (n : Nat) (st : SetState)
    (tr : List Nat) (hlen : st.pos + n ≤ s.length) (hrow : row < 9) (hn : n ≤ 9) :
    ∃ st1, (List.range n).foldlM (fun acc col => dialog_set_body s row col acc) st
        = some st1 ∧
      (List.range n).foldlM (fun a col => dialog_set_body_traced s row col a) (st, tr)
        = some (st1, tr ++ (List.range n).map (fun k => st.pos + k)) ∧
      st1.pos = st.pos + n := by
  induction n with
  | zero => exact ⟨st, rfl, by simp, rfl⟩
  | succ n ih =>
    obtain ⟨st1, h1, h1t, hp1⟩ := ih (by omega) (by omega)
    obtain ⟨st2, h2, hp2, _⟩ := dialog_set_body_lt s row n hrow (by omega) st1 (by omega)
    refine ⟨st2, ?_, ?_, by omega⟩
    · rw [List.range_succ n, List.foldlM_append, h1]
      simp only [Option.some_bind, Option.bind_eq_bind, List.foldlM_cons, List.foldlM_nil, h2]
      rfl
    · rw [List.range_succ n, List.foldlM_append, h1t]
      simp only [Option.some_bind, Option.bind_eq_bind, List.foldlM_cons, List.foldlM_nil,
        dialog_set_body_traced, h2, List.map_append, List.map_cons, List.map_nil, hp1,
        List.append_assoc]
      rfl

theorem traced_rows_spec (s : List Int) (m : Nat) (st : SetState) (tr : List Nat)
    (hlen : st.pos + 9 * m ≤ s.length) (hm : m ≤ 9) :
    ∃ st1, (List.range m).foldlM (dialog_set_row s) st = some st1 ∧
      (List.range m).foldlM (dialog_set_row_traced s) (st, tr)
        = some (st1, tr ++ (List.range (9 * m)).map (fun k => st.pos + k)) ∧
      st1.pos = st.pos + 9 * m := by
  induction m with
  | zero => exact ⟨st, rfl, by simp, rfl⟩
  | succ m ih =>
    obtain ⟨st1, h1, h1t, hp1⟩ := ih (by omega) (by omega)
    obtain ⟨st2, h2, h2t, hp2⟩ :=
      traced_cols_spec s m 9 st1 (tr ++ (List.range (9 * m)).map (fun k => st.pos + k))
        (by omega) (by omega) (by omega)
    refine ⟨st2, ?_, ?_, by omega⟩
    · rw [List.range_succ m, List.foldlM_append, h1]
      simp only [Option.some_bind, Option.bind_eq_bind, List.foldlM_cons, List.foldlM_nil]
      unfold dialog_set_row
      rw [DIGITS_toNat, h2]
      rfl
    · rw [List.range_succ m, List.foldlM_append, h1t]
      simp only [Option.some_bind, Option.bind_eq_bind, List.foldlM_cons, List.foldlM_nil]
      unfold dialog_set_row_traced
      rw [DIGITS_toNat, h2t]
      have hr : List.range (9 * (m + 1)) =
          List.range (9 * m) ++ (List.range 9).map (fun k => 9 * m + k) := by
        rw [show 9 * (m + 1) = 9 * m + 9 by ring, List.range_add]
      rw [hr, List.map_append, List.map_map, hp1, List.append_assoc]
      have hf : ((fun k => st.pos + k) ∘ fun k => 9 * m + k) = fun k => st.pos + 9 * m + k := by
        funext k
        simp only [Function.comp]
        omega
      rw [hf]
      rfl

/-- C23: for a string `s` with `boardlen(s) == 81`, the loop of
`sudoku_dialog_set` reads `*board` 81 times, at the offsets 0 to 80 in this
order, each smaller than the length of `s`, so neither the terminator nor
anything after it is read; the board it leaves is the one of
`sudoku_dialog_set`. -/
theorem dialog_set_reads_in_bounds (w : SudokuBoard) (s : List Int)
    (h : boardlen (some s) = 81) :
    ∃ r reads, sudoku_dialog_set_traced w (some s) = some (r, reads) ∧
      sudoku_dialog_set w (some s) = some r ∧
      reads = List.range 81 ∧ reads.length = 81 ∧
      ∀ i ∈ reads, i < strlen s ∧ i < s.length ∧ deref s i ≠ some 0 := by
  have h81 : 81 ≤ strlen s := by
    have h1 := boardlenLoop_le_strlen s 0
    have h2 : boardlenLoop s 0 = 81 := h
    omega
  have hlen : 81 ≤ s.length := le_trans h81 (strlen_le_length s)
  obtain ⟨st1, h1, h1t, _⟩ :=
    traced_rows_spec s 9 { widget := w, pos := 0, effects := [] } [] (by simpa using hlen)
      (by omega)
  have hd : (DIGITS * DIGITS).toNat = 81 := rfl
  refine ⟨(st1.widget, st1.effects), List.range 81, ?_, ?_, rfl, List.length_range 81, ?_⟩
  · unfold sudoku_dialog_set_traced
    rw [hd, if_neg (by simpa using h), DIGITS_toNat]
    show Option.map (fun a : SetState × List Nat => ((a.1.widget, a.1.effects), a.2))
      (List.foldlM (dialog_set_row_traced s)
        ({ widget := w, pos := 0, effects := [] }, []) (List.range 9)) = _
    rw [h1t]
    simp
  · unfold sudoku_dialog_set
    rw [hd, if_neg (by simpa using h), DIGITS_toNat]
    show Option.map (fun st : SetState => (st.widget, st.effects))
      (List.foldlM (dialog_set_row s) { widget := w, pos := 0, effects := [] }
        (List.range 9)) = _
    rw [h1]
    rfl
  · intro i hi
    rw [List.mem_range] at hi
    have hi1 : i < strlen s := by omega
    refine ⟨hi1, by omega, ?_⟩
    rw [deref_lt s i (by omega)]
    intro hz
    have hz0 : s.getD i 0 = 0 := Option.some.inj hz
    have hmem : ∀ c ∈ s.takeWhile (fun c => c != 0), (c != 0) = true := by
      intro c hc
      have hp := @List.mem_takeWhile_imp Int (fun c => c != 0) s c hc
      exact hp
    have hi2 : i < (s.takeWhile (fun c => c != 0)).length := hi1
    have hget : (s.takeWhile (fun c => c != 0))[i] = s[i] := by
      have hpre : (s.takeWhile (fun c => c != 0)) <+: s := List.takeWhile_prefix _
      exact List.IsPrefix.getElem hpre hi2
    have hne := hmem _ (List.getElem_mem hi2)
    rw [hget] at hne
    rw [List.getD_eq_getElem _ _ (by omega)] at hz0
    rw [hz0] at hne
    exact absurd hne (by decide)

set_option maxRecDepth 100000 in
theorem dialog_set_reads_in_bounds_witness :
    boardlen (some (List.replicate 81 53)) = 81 ∧
    ∃ r reads, sudoku_dialog_set_traced (sudoku_board_new true)
        (some (List.replicate 81 53)) = some (r, reads) ∧
      sudoku_dialog_set (sudoku_board_new true) (some (List.replicate 81 53)) = some r ∧
      reads = List.range 81 ∧ reads.length = 81 ∧
      ∀ i ∈ reads, i < strlen (List.replicate 81 53) ∧
        i < (List.replicate 81 (53 : Int)).length ∧
        deref (List.replicate 81 53) i ≠ some 0 :=
  ⟨by decide, dialog_set_reads_in_bounds (sudoku_board_new true) (List.replicate 81 53)
    (by decide)⟩

/-! ## Saving -/

/-- C25 does not hold of the code: whenever `interp_save` leaves the null
pointer in `board`, after an error of the Lua call or when the saved value
is not a string, `save_file` evaluates `*board` and so dereferences the null
pointer; with a string in `board` it writes the file exactly when the string
is not empty and, unless the file cannot be opened, sets the status line
from the message. -/
theorem save_file_null_board (fopenOk : Bool) :
    (∀ msg : Option (List Int),
      save_file { failed := true, top := msg } true fopenOk = SaveResult.null_dereference) ∧
    save_file { failed := false, top := none } true fopenOk = SaveResult.null_dereference ∧
    (∀ msg : Option (List Int),
      interp_save { failed := true, top := msg } true = some (msg, none)) ∧
    (∀ b : List Int, b.head? ≠ some 0 → b ≠ [] →
      save_file { failed := false, top := some b } true true =
        SaveResult.returned
          [SaveCall.fputs b, SaveCall.fclose, SaveCall.free (some b),
            SaveCall.entry_set_text []]) ∧
    save_file { failed := false, top := some [] } true fopenOk =
      SaveResult.returned [SaveCall.entry_set_text []] := by
  refine ⟨?_, ?_, ?_, ?_, ?_⟩
  · intro msg
    cases msg <;> rfl
  · rfl
  · intro msg
    cases msg <;> rfl
  · intro b hb hne
    cases b with
    | nil => exact absurd rfl hne
    | cons c rest =>
      have hc : c ≠ 0 := by
        intro h
        apply hb
        rw [h]
        rfl
      have hd : deref (c :: rest) 0 ≠ some 0 := by
        intro h
        apply hc
        have h2 : deref (c :: rest) 0 = some c := by simp [deref]
        rw [h2] at h
        exact Option.some.inj h
      have h1 : interp_save { failed := false, top := some (c :: rest) } true
          = some (none, some (c :: rest)) := rfl
      unfold save_file
      rw [h1]
      simp only [if_pos hd]
      rfl
  · cases fopenOk <;> rfl

end GtkSudoku
